import Mathlib

/-!
Verification of the circuit simulator core (components, topology resolver,
heuristic solver, simulation loop) as a shallow embedding in Lean 4.

The embedding follows the Python source:
  src/components/base_component.py
  src/components/passive_components.py
  src/components/active_components.py
  src/simulation/simulator.py
  src/simulation/circuit_solver.py
Real numbers of the source (Python floats) are modelled as rationals.
Python dicts are modelled as insertion-ordered association lists:
assignment to a present key updates it in place, assignment to an absent
key appends it at the end, exactly like dict insertion order.
-/

namespace CircuitSim

/-- Lookup in an insertion-ordered association list (Python dict read). -/
def lookupA {κ α : Type} [DecidableEq κ] (k : κ) :
    List (κ × α) → Option α
  | [] => none
  | p :: rest => if p.1 = k then some p.2 else lookupA k rest

/-- Assignment in an insertion-ordered association list (Python dict write):
updates the entry in place when the key is present, appends otherwise. -/
def setA {κ α : Type} [DecidableEq κ] (k : κ) (v : α) :
    List (κ × α) → List (κ × α)
  | [] => [(k, v)]
  | p :: rest => if p.1 = k then (k, v) :: rest else p :: setA k v rest

/-- A component state value: the leaves stored in the `state` dict of a
component (floats, booleans, strings, and the nested `voltages`/`currents`
dicts of floats). -/
inductive SVal : Type
  | num (q : ℚ)
  | bool (b : Bool)
  | str (s : String)
  | dict (m : List (String × ℚ))
  deriving DecidableEq

/-- The component kinds of the source that this development models. -/
inductive CompKind : Type
  | resistor | capacitor | inductor | ground
  | dcSource | acSource | diode | led | switch
  deriving DecidableEq

/-- Terminal names of each kind, in the insertion order of the
`_init_connections` dict of the corresponding Python class. -/
def CompKind.terminals : CompKind → List String
  | .resistor => ["p1", "p2"]
  | .capacitor => ["p1", "p2"]
  | .inductor => ["p1", "p2"]
  | .ground => ["gnd"]
  | .dcSource => ["pos", "neg"]
  | .acSource => ["pos", "neg"]
  | .diode => ["anode", "cathode"]
  | .led => ["anode", "cathode"]
  | .switch => ["p1", "p2"]

/-- A component instance (`BaseComponent` and subclasses).  `acClock` models
the `simulation_time` instance attribute that `ACVoltageSource.__init__`
creates outside of `state`; it is 0 and unused for every other kind. -/
structure Component : Type where
  id : String
  kind : CompKind
  props : List (String × SVal)
  connectedTo : List (String × List (String × String))
  state : List (String × SVal)
  acClock : ℚ
  deriving DecidableEq

/-- `BaseComponent.get_property` with a numeric default. -/
def getNumProp (c : Component) (name : String) (dflt : ℚ) : ℚ :=
  match lookupA name c.props with
  | some (.num q) => q
  | _ => dflt

/-- `BaseComponent.get_property` with a boolean default. -/
def getBoolProp (c : Component) (name : String) (dflt : Bool) : Bool :=
  match lookupA name c.props with
  | some (.bool b) => b
  | _ => dflt

/-- `BaseComponent.get_property` with a string default. -/
def getStrProp (c : Component) (name : String) (dflt : String) : String :=
  match lookupA name c.props with
  | some (.str s) => s
  | _ => dflt

/-- `BaseComponent.get_current`: the entry of `state["currents"]` at the
given terminal, or `none` when absent. -/
def getCurrentOf (c : Component) (conn : String) : Option ℚ :=
  match lookupA "currents" c.state with
  | some (.dict m) => lookupA conn m
  | _ => none

/-- A nested numeric read `state[key][sub]`, defaulting to 0. -/
def stateDictNum (c : Component) (key sub : String) : ℚ :=
  match lookupA key c.state with
  | some (.dict m) => (lookupA sub m).getD 0
  | _ => 0

/-- A scalar numeric read `state[key]`, defaulting to 0. -/
def stateNum (c : Component) (key : String) : ℚ :=
  match lookupA key c.state with
  | some (.num q) => q
  | _ => 0

/-- `_init_state` of each component class, in dict insertion order.
The switch reads its `state` property, the LED its `color` property. -/
def initState (k : CompKind) (props : List (String × SVal)) :
    List (String × SVal) :=
  match k with
  | .resistor =>
      [("voltages", .dict [("p1", 0), ("p2", 0)]),
       ("currents", .dict [("p1", 0), ("p2", 0)]),
       ("power", .num 0), ("temperature", .num 25)]
  | .capacitor =>
      [("voltages", .dict [("p1", 0), ("p2", 0)]),
       ("currents", .dict [("p1", 0), ("p2", 0)]),
       ("charge", .num 0), ("energy", .num 0)]
  | .inductor =>
      [("voltages", .dict [("p1", 0), ("p2", 0)]),
       ("currents", .dict [("p1", 0), ("p2", 0)]),
       ("flux", .num 0), ("energy", .num 0)]
  | .ground =>
      [("voltages", .dict [("gnd", 0)]), ("currents", .dict [("gnd", 0)])]
  | .dcSource =>
      [("voltages", .dict [("pos", 0), ("neg", 0)]),
       ("currents", .dict [("pos", 0), ("neg", 0)]),
       ("power", .num 0)]
  | .acSource =>
      [("voltages", .dict [("pos", 0), ("neg", 0)]),
       ("currents", .dict [("pos", 0), ("neg", 0)]),
       ("power", .num 0), ("instantaneous_voltage", .num 0),
       ("time", .num 0)]
  | .diode =>
      [("voltages", .dict [("anode", 0), ("cathode", 0)]),
       ("currents", .dict [("anode", 0), ("cathode", 0)]),
       ("power", .num 0), ("conducting", .bool false)]
  | .led =>
      [("voltages", .dict [("anode", 0), ("cathode", 0)]),
       ("currents", .dict [("anode", 0), ("cathode", 0)]),
       ("power", .num 0), ("conducting", .bool false),
       ("brightness", .num 0),
       ("color", .str (match lookupA "color" props with
                       | some (.str s) => s
                       | _ => "red"))]
  | .switch =>
      [("voltages", .dict [("p1", 0), ("p2", 0)]),
       ("currents", .dict [("p1", 0), ("p2", 0)]),
       ("closed", .bool (match lookupA "state" props with
                         | some (.bool b) => b
                         | _ => false))]

/-- One step of the `apply` merge loop of the component classes: a category
present in the state is merged (nested dict) or replaced (scalar); a
category absent from the state is skipped.  The source raises a TypeError
when a dict update meets a non-dict stored value; no modelled component
produces that shape, and the model leaves the state unchanged there. -/
def applyOne (st : List (String × SVal)) (p : String × SVal) :
    List (String × SVal) :=
  if (lookupA p.1 st).isSome then
    match p.2 with
    | .dict d =>
        match lookupA p.1 st with
        | some (.dict m) =>
            setA p.1 (.dict (d.foldl (fun m q => setA q.1 q.2 m) m)) st
        | _ => st
    | v => setA p.1 v st
  else st

/-- `apply(state_updates)` as implemented identically on every component
class: fold the merge step over the updates in insertion order. -/
def applyUpdates (st upd : List (String × SVal)) : List (String × SVal) :=
  upd.foldl applyOne st

/-- The current/conducting/brightness computation of `LED.calculate`
(src/components/active_components.py, lines 461-526), as a function of the
forward-voltage property, the max-current property and the two terminal
voltages.  Returns (current, conducting, brightness). -/
def ledCompute (fv maxI vA vC : ℚ) : ℚ × Bool × ℚ :=
  let drop := vA - vC
  if drop > fv * (9/10) then
    let i0 := (drop - fv) / (1/10)
    let i := if i0 > maxI then maxI else i0
    let b := if i > 0 ∧ drop ≥ fv * (9/10) then min 1 (i / maxI) else 0
    (i, true, b)
  else
    let i : ℚ := if drop < 0 then -(1/1000000000) else 0
    let b := if i > 0 ∧ drop ≥ fv * (9/10) then min 1 (i / maxI) else 0
    (i, false, b)

/-- A node of the derived topology (`Node` in src/simulation/simulator.py):
the (component id, terminal) members attached to it, and its voltage.
Members are stored in insertion order and deduplicated, like the
`Node.components` dict keyed by `(component_id, connection_name)`. -/
structure SimNode : Type where
  members : List (String × String)
  voltage : ℚ
  deriving DecidableEq

/-- The simulator state (`CircuitSimulator`).  History series are keyed by
(component id, state key), the state key being `key` or `key.subkey`. -/
structure Sim : Type where
  components : List (String × Component)
  nodes : List (String × SimNode)
  groundId : Option String
  timeStep : ℚ
  simulationTime : ℚ
  running : Bool
  paused : Bool
  history : List ((String × String) × List (ℚ × SVal))
  historyLength : ℕ
  deriving DecidableEq

/-- `CircuitSimulator.get_node_for_component`: the first node, in node
insertion order, that contains the given (component id, terminal). -/
def findNodeEntry (ns : List (String × SimNode)) (cid conn : String) :
    Option (String × SimNode) :=
  ns.find? (fun q => (cid, conn) ∈ q.2.members)

/-- The id of the node found by `findNodeEntry`. -/
def findNodeIn (ns : List (String × SimNode)) (cid conn : String) :
    Option String :=
  (findNodeEntry ns cid conn).map (·.1)

/-- Assigning `node.voltage = v` through the object reference found for a
node id: every entry with that id gets the new voltage. -/
def writeNode (nid : String) (v : ℚ) (ns : List (String × SimNode)) :
    List (String × SimNode) :=
  ns.map (fun p => if p.1 = nid then (p.1, { p.2 with voltage := v }) else p)

/-- The node voltage read by the component `calculate` methods:
`node.voltage` when the node is found, else 0. -/
def nodeVoltageFor (ns : List (String × SimNode)) (cid conn : String) : ℚ :=
  match findNodeEntry ns cid conn with
  | some q => q.2.voltage
  | none => 0

/-- The abstracted sine waveform of `ACVoltageSource.calculate` and nothing
else: `wave f t phaseDeg` stands for `sin(2*pi*f*t + radians(phaseDeg))`.
The development is parametric in it because sine is transcendental; no
claim in scope depends on its values. -/
def Wave : Type := ℚ → ℚ → ℚ → ℚ

/-- The constant-zero waveform, used to instantiate concrete runs. -/
def waveZero : Wave := fun _ _ _ => 0

/-! ### Per-kind `calculate` methods -/

/-- `Resistor.calculate`. -/
def calcResistor (ns : List (String × SimNode)) (c : Component) :
    List (String × SVal) :=
  let r := getNumProp c "resistance" 1000
  let maxP := getNumProp c "max_power" (1/4)
  let v1 := nodeVoltageFor ns c.id "p1"
  let v2 := nodeVoltageFor ns c.id "p2"
  let drop := v1 - v2
  let i := if r > 0 then drop / r else 0
  let p := drop * i
  [("voltages", .dict [("p1", v1), ("p2", v2)]),
   ("currents", .dict [("p1", i), ("p2", -i)]),
   ("power", .num p),
   ("temperature", .num (if p > 0 then 25 + p / maxP * 50 else 25))]

/-- `Capacitor.calculate`. -/
def calcCapacitor (ns : List (String × SimNode)) (c : Component) (dt : ℚ) :
    List (String × SVal) :=
  let cap := getNumProp c "capacitance" (1/1000000)
  let v1 := nodeVoltageFor ns c.id "p1"
  let v2 := nodeVoltageFor ns c.id "p2"
  let drop := v1 - v2
  let prevQ := stateNum c "charge"
  let newQ := cap * drop
  let i := if dt > 0 then (newQ - prevQ) / dt else 0
  [("voltages", .dict [("p1", v1), ("p2", v2)]),
   ("currents", .dict [("p1", i), ("p2", -i)]),
   ("charge", .num newQ),
   ("energy", .num ((1/2) * cap * drop ^ 2))]

/-- `Inductor.calculate`. -/
def calcInductor (ns : List (String × SimNode)) (c : Component) (dt : ℚ) :
    List (String × SVal) :=
  let l := getNumProp c "inductance" (1/1000)
  let v1 := nodeVoltageFor ns c.id "p1"
  let v2 := nodeVoltageFor ns c.id "p2"
  let drop := v1 - v2
  let dI := if l > 0 then drop * dt / l else 0
  let newI := stateDictNum c "currents" "p1" + dI
  [("voltages", .dict [("p1", v1), ("p2", v2)]),
   ("currents", .dict [("p1", newI), ("p2", -newI)]),
   ("flux", .num (l * newI)),
   ("energy", .num ((1/2) * l * newI ^ 2))]

/-- `Ground.calculate`. -/
def calcGround : List (String × SVal) :=
  [("voltages", .dict [("gnd", 0)]), ("currents", .dict [("gnd", 0)])]

/-- `DCVoltageSource.calculate`: pins its two node voltages directly and
reads back its own previous current, clamped to the compliance limit.
Returns the state updates and the mutated node map. -/
def calcDC (ns : List (String × SimNode)) (c : Component) :
    List (String × SVal) × List (String × SimNode) :=
  let v := getNumProp c "voltage" 5
  let maxI := getNumProp c "max_current" 1
  let nPos := findNodeIn ns c.id "pos"
  let nNeg := findNodeIn ns c.id "neg"
  let ns1 := match nPos with
             | some nid => writeNode nid v ns
             | none => ns
  let ns2 := match nNeg with
             | some nid => writeNode nid 0 ns1
             | none => ns1
  let i0 := if nPos.isSome then
              (match lookupA "currents" c.state with
               | some (.dict m) => (lookupA "pos" m).getD 0
               | _ => 0)
            else 0
  let i := if |i0| > maxI then (if i0 > 0 then maxI else -maxI) else i0
  ([("voltages", .dict [("pos", v), ("neg", 0)]),
    ("currents", .dict [("pos", i), ("neg", -i)]),
    ("power", .num (v * i))], ns2)

/-- `ACVoltageSource.calculate`: advances the private clock attribute,
evaluates the waveform, and sums the currents of the other components
attached to its positive node.  Returns the updates and the new clock. -/
def calcAC (w : Wave) (comps : List (String × Component))
    (ns : List (String × SimNode)) (c : Component) (dt : ℚ) :
    List (String × SVal) × ℚ :=
  let a := getNumProp c "amplitude" 5
  let f := getNumProp c "frequency" 1000
  let ph := getNumProp c "phase" 0
  let maxI := getNumProp c "max_current" 1
  let clock := c.acClock + dt
  let v := a * w f clock ph
  let i0 := match findNodeEntry ns c.id "pos" with
            | some q => q.2.members.foldl (fun acc m =>
                if m.1 = c.id then acc
                else match lookupA m.1 comps with
                     | some oc => match getCurrentOf oc m.2 with
                                  | some cur => acc - cur
                                  | none => acc
                     | none => acc) 0
            | none => 0
  let i := if |i0| > maxI then (if i0 > 0 then maxI else -maxI) else i0
  ([("voltages", .dict [("pos", v), ("neg", 0)]),
    ("currents", .dict [("pos", i), ("neg", -i)]),
    ("power", .num (v * i)),
    ("instantaneous_voltage", .num v),
    ("time", .num clock)], clock)

/-- `Diode.calculate`. -/
def calcDiode (ns : List (String × SimNode)) (c : Component) :
    List (String × SVal) :=
  let fv := getNumProp c "forward_voltage" (7/10)
  let maxI := getNumProp c "max_current" 1
  let vA := nodeVoltageFor ns c.id "anode"
  let vC := nodeVoltageFor ns c.id "cathode"
  let drop := vA - vC
  let res := if drop > fv * (9/10) then
               let i0 := (drop - fv) / (1/10)
               (if i0 > maxI then maxI else i0, true)
             else (0, false)
  [("voltages", .dict [("anode", vA), ("cathode", vC)]),
   ("currents", .dict [("anode", res.1), ("cathode", -res.1)]),
   ("power", .num (drop * res.1)),
   ("conducting", .bool res.2)]

/-- `LED.calculate`, built on `ledCompute`. -/
def calcLED (ns : List (String × SimNode)) (c : Component) :
    List (String × SVal) :=
  let fv := getNumProp c "forward_voltage" 2
  let maxI := getNumProp c "max_current" (1/50)
  let vA := nodeVoltageFor ns c.id "anode"
  let vC := nodeVoltageFor ns c.id "cathode"
  let r := ledCompute fv maxI vA vC
  [("voltages", .dict [("anode", vA), ("cathode", vC)]),
   ("currents", .dict [("anode", r.1), ("cathode", -r.1)]),
   ("power", .num ((vA - vC) * r.1)),
   ("conducting", .bool r.2.1),
   ("brightness", .num r.2.2),
   ("color", .str (getStrProp c "color" "red"))]

/-- `Switch.calculate`. -/
def calcSwitch (ns : List (String × SimNode)) (c : Component) :
    List (String × SVal) :=
  let closed := getBoolProp c "state" false
  let maxI := getNumProp c "max_current" 5
  let v1 := nodeVoltageFor ns c.id "p1"
  let v2 := nodeVoltageFor ns c.id "p2"
  let i := if closed then
             let i0 := (v1 - v2) / (1/100)
             if |i0| > maxI then (if i0 > 0 then maxI else -maxI) else i0
           else 0
  [("voltages", .dict [("p1", v1), ("p2", v2)]),
   ("currents", .dict [("p1", i), ("p2", -i)]),
   ("closed", .bool closed)]

/-- Dispatch of `component.calculate(simulator, time_step)`: returns the
state updates, the possibly mutated node map (DC sources write node
voltages) and the possibly advanced private clock (AC sources). -/
def componentCalculate (w : Wave) (comps : List (String × Component))
    (ns : List (String × SimNode)) (c : Component) (dt : ℚ) :
    List (String × SVal) × List (String × SimNode) × ℚ :=
  match c.kind with
  | .resistor => (calcResistor ns c, ns, c.acClock)
  | .capacitor => (calcCapacitor ns c dt, ns, c.acClock)
  | .inductor => (calcInductor ns c dt, ns, c.acClock)
  | .ground => (calcGround, ns, c.acClock)
  | .dcSource => let r := calcDC ns c
                 (r.1, r.2, c.acClock)
  | .acSource => let r := calcAC w comps ns c dt
                 (r.1, ns, r.2)
  | .diode => (calcDiode ns c, ns, c.acClock)
  | .led => (calcLED ns c, ns, c.acClock)
  | .switch => (calcSwitch ns c, ns, c.acClock)

/-! ### The heuristic solver bound as `CircuitSimulator.solve_circuit`
(src/simulation/circuit_solver.py, `CircuitSolver.solve_circuit`,
lines 35-140).  It never assembles a matrix: it pins ground to 0, pins the
two node voltages of each DC source, copies node voltages into component
states, and re-derives diode/LED conduction from those state voltages. -/

/-- One iteration of the DC-source pass of `solve_circuit`: the loop
matches both source kinds, looks both terminal nodes up by the dict key,
but only a `DCVoltageSource` writes its `pos`/`neg` node voltages. -/
def dcStep (ns : List (String × SimNode)) (p : String × Component) :
    List (String × SimNode) :=
  if p.2.kind = .dcSource ∨ p.2.kind = .acSource then
    let nPos := findNodeIn ns p.1 "pos"
    let nNeg := findNodeIn ns p.1 "neg"
    if p.2.kind = .dcSource then
      let v := getNumProp p.2 "voltage" 5
      let ns1 := match nPos with
                 | some nid => writeNode nid v ns
                 | none => ns
      match nNeg with
      | some nid => writeNode nid 0 ns1
      | none => ns1
    else ns
  else ns

/-- The DC-source pass of `solve_circuit` over every component. -/
def solveDCPass (comps : List (String × Component))
    (ns : List (String × SimNode)) : List (String × SimNode) :=
  comps.foldl dcStep ns

/-- The propagation pass of `solve_circuit`: for every node in order, copy
its voltage into `state["voltages"][conn]` of every attached component that
has a `voltages` dict in its state. -/
def solvePropagate (ns : List (String × SimNode))
    (comps : List (String × Component)) : List (String × Component) :=
  ns.foldl (fun comps q =>
    q.2.members.foldl (fun comps m =>
      match lookupA m.1 comps with
      | some c =>
          (match lookupA "voltages" c.state with
           | some (.dict d) =>
               let st := setA "voltages" (.dict (setA m.2 q.2.voltage d)) c.state
               setA m.1 { c with state := st } comps
           | _ => comps)
      | none => comps) comps) comps

/-- The diode/LED pass of `solve_circuit`: re-derive conduction from the
state voltages written by the propagation pass, replacing the whole
`currents` dict and the `conducting` flag (and `brightness` for LEDs).
Note the solver clamps with a `max_current` default of 1.0 for both kinds
but computes LED brightness with a separate default of 0.02. -/
def solveDiodePass (comps : List (String × Component)) :
    List (String × Component) :=
  (comps.map (·.1)).foldl (fun comps cid =>
    match lookupA cid comps with
    | some c =>
        if c.kind = .diode ∨ c.kind = .led then
          let vA := stateDictNum c "voltages" "anode"
          let vC := stateDictNum c "voltages" "cathode"
          let drop := vA - vC
          let fv := getNumProp c "forward_voltage"
                      (if c.kind = .diode then 7/10 else 2)
          if drop > fv * (9/10) then
            let i0 := (drop - fv) / (1/10)
            let maxC := getNumProp c "max_current" 1
            let i := if i0 > maxC then maxC else i0
            let st := setA "currents" (.dict [("anode", i), ("cathode", -i)])
                        c.state
            let st := setA "conducting" (.bool true) st
            let st := if c.kind = .led then
                        let maxLed := getNumProp c "max_current" (1/50)
                        setA "brightness" (.num (min 1 (i / maxLed))) st
                      else st
            setA cid { c with state := st } comps
          else
            let st := setA "currents" (.dict [("anode", 0), ("cathode", 0)])
                        c.state
            let st := setA "conducting" (.bool false) st
            let st := if c.kind = .led then setA "brightness" (.num 0) st
                      else st
            setA cid { c with state := st } comps
        else comps
    | none => comps) comps

/-- The body of `solve_circuit` once a ground node exists: returns the new
component map and node map. -/
def solveCore (comps : List (String × Component))
    (ns : List (String × SimNode)) (g : String) :
    List (String × Component) × List (String × SimNode) :=
  let ns1 := writeNode g 0 ns
  let ns2 := solveDCPass comps ns1
  let comps1 := solvePropagate ns2 comps
  (solveDiodePass comps1, ns2)

/-- `solve_circuit`: a no-op when there is no ground node. -/
def solveCircuit (s : Sim) : Sim :=
  match s.groundId with
  | none => s
  | some g =>
      let r := solveCore s.components s.nodes g
      { s with components := r.1, nodes := r.2 }

/-! ### History recording and the per-tick component loop
(`CircuitSimulator.update`, src/simulation/simulator.py lines 599-688). -/

/-- Append one `(time, value)` sample to the series of one history key,
evicting the oldest entry first when the cap is already reached. -/
def pushHist (cap : ℕ) (hist : List ((String × String) × List (ℚ × SVal)))
    (key : String × String) (t : ℚ) (v : SVal) :
    List ((String × String) × List (ℚ × SVal)) :=
  let series := (lookupA key hist).getD []
  let series := if cap ≤ series.length then series.drop 1 else series
  setA key (series ++ [(t, v)]) hist

/-- Record every scalar leaf of one component state into history: nested
dict entries under `key.subkey`, scalars under `key`. -/
def recordState (cap : ℕ) (hist : List ((String × String) × List (ℚ × SVal)))
    (cid : String) (t : ℚ) (st : List (String × SVal)) :
    List ((String × String) × List (ℚ × SVal)) :=
  st.foldl (fun hist p =>
    match p.2 with
    | .dict m => m.foldl (fun hist q =>
        pushHist cap hist (cid, p.1 ++ "." ++ q.1) t (.num q.2)) hist
    | v => pushHist cap hist (cid, p.1) t v) hist

/-- One iteration of the component-update loop: `calculate`, `apply`, then
record the freshly applied state into history. -/
def calcStep (w : Wave) (dt t : ℚ) (cap : ℕ)
    (acc : List (String × Component) × List (String × SimNode) ×
           List ((String × String) × List (ℚ × SVal))) (cid : String) :
    List (String × Component) × List (String × SimNode) ×
    List ((String × String) × List (ℚ × SVal)) :=
  match lookupA cid acc.1 with
  | none => acc
  | some c =>
      let r := componentCalculate w acc.1 acc.2.1 c dt
      let c' := { c with state := applyUpdates c.state r.1, acClock := r.2.2 }
      (setA cid c' acc.1, r.2.1, recordState cap acc.2.2 cid t c'.state)

/-- The whole component-update loop of `update`, over the component ids in
insertion order, threading the live component map, node map and history. -/
def calcFold (w : Wave) (dt t : ℚ) (cap : ℕ) (order : List String)
    (comps : List (String × Component)) (ns : List (String × SimNode))
    (hist : List ((String × String) × List (ℚ × SVal))) :
    List (String × Component) × List (String × SimNode) ×
    List ((String × String) × List (ℚ × SVal)) :=
  order.foldl (calcStep w dt t cap) (comps, ns, hist)

/-- `CircuitSimulator.update(elapsed_time)`: a no-op unless running,
unpaused and nonempty.  The resolved elapsed time is computed and then
never used again, exactly as in the source: `calculate` receives the fixed
`time_step` and simulation time advances by the fixed `time_step`.  The
conservation check only logs and is therefore not part of the state. -/
def updateSim (w : Wave) (elapsed : Option ℚ) (s : Sim) : Sim :=
  if s.running = false ∨ s.paused = true ∨ s.components = [] then s
  else
    let _elapsedResolved := elapsed.getD s.timeStep
    let s1 := solveCircuit s
    let r := calcFold w s.timeStep s.simulationTime s.historyLength
               (s1.components.map (·.1)) s1.components s1.nodes s1.history
    { s1 with components := r.1, nodes := r.2.1, history := r.2.2,
              simulationTime := s1.simulationTime + s1.timeStep }

/-- Iterated ticks. -/
def iterTick (w : Wave) (elapsed : Option ℚ) : ℕ → Sim → Sim
  | 0, s => s
  | n + 1, s => updateSim w elapsed (iterTick w elapsed n s)

/-- The per-tick component-state snapshots of `k` successive ticks. -/
def componentStates (s : Sim) : List (String × List (String × SVal)) :=
  s.components.map (fun p => (p.1, p.2.state))

/-- The state trajectory of a run of `k` ticks from `s`. -/
def trajectory (w : Wave) (elapsed : Option ℚ) :
    ℕ → Sim → List (List (String × List (String × SVal)))
  | 0, _ => []
  | k + 1, s =>
      let s' := updateSim w elapsed s
      componentStates s' :: trajectory w elapsed k s'

/-- `CircuitSimulator.start_simulation`: only acts when not running. -/
def startSimulation (s : Sim) : Sim :=
  if s.running = false then { s with running := true, simulationTime := 0 }
  else s

/-- `CircuitSimulator.reset_simulation` (src/simulation/simulator.py lines
429-441): zeroes simulation time, clears history and re-runs `_init_state`
on every component.  It does not touch `running`, `paused`, the node map,
or the private clock attribute of AC sources. -/
def resetSimulation (s : Sim) : Sim :=
  { s with simulationTime := 0, history := [],
           components := s.components.map (fun p =>
             (p.1, { p.2 with state := initState p.2.kind p.2.props })) }

/-! ### Connecting terminals (`BaseComponent.connect`,
src/components/base_component.py lines 132-156, and
`CircuitSimulator.connect_components_at`, simulator.py lines 269-304). -/

/-- `BaseComponent.connect`: validates both terminal names, rejects a
duplicate pair, otherwise appends the pair to the connection list. -/
def compConnect (c : Component) (connName : String) (otherId : String)
    (otherKind : CompKind) (otherConn : String) : Bool × Component :=
  if connName ∉ c.kind.terminals then (false, c)
  else if otherConn ∉ otherKind.terminals then (false, c)
  else
    let lst := (lookupA connName c.connectedTo).getD []
    if (otherId, otherConn) ∈ lst then (false, c)
    else
      let ct := setA connName (lst ++ [(otherId, otherConn)]) c.connectedTo
      (true, { c with connectedTo := ct })

/-- `connect_components_at`: looks both components up, validates the
terminal names, then performs the two symmetric `connect` calls.  The
calls mutate the component objects in place, so their effect persists even
when the overall operation reports failure; when both ids name the same
object the second call sees the mutation of the first. -/
def connectComponentsAt (s : Sim) (id1 conn1 id2 conn2 : String) :
    Bool × Sim :=
  match lookupA id1 s.components, lookupA id2 s.components with
  | some comp1, some comp2 =>
      if conn1 ∉ comp1.kind.terminals ∨ conn2 ∉ comp2.kind.terminals then
        (false, s)
      else
        let r1 := compConnect comp1 conn1 id2 comp2.kind conn2
        let comp2cur := if id2 = id1 then r1.2 else comp2
        let r2 := compConnect comp2cur conn2 id1 comp1.kind conn1
        let comps1 := setA id1 r1.2 s.components
        let comps2 := setA id2 r2.2 comps1
        (r1.1 && r2.1, { s with components := comps2 })
  | _, _ => (false, s)

/-! ### Topology rebuild (`CircuitSimulator.build_circuit_from_components`,
src/simulation/simulator.py lines 691-836). -/

/-- The working state of the grouping loop: the `connection_map` dict from
(component id, terminal) keys to group ids, the `connection_groups` dict
from group ids to their key lists, and the next fresh group number. -/
structure GroupState : Type where
  cmap : List ((String × String) × String)
  groups : List (String × List (String × String))
  next : ℕ
  deriving DecidableEq

/-- Step 1 of the grouping for one explicit connection pair: merge,
extend, or create groups exactly as the source does. -/
def groupPair (key1 key2 : String × String) (gs : GroupState) : GroupState :=
  match lookupA key1 gs.cmap, lookupA key2 gs.cmap with
  | some g1, some g2 =>
      if g1 ≠ g2 then
        let cmap := gs.cmap.map (fun kv => if kv.2 = g2 then (kv.1, g1) else kv)
        match lookupA g2 gs.groups with
        | some l2 =>
            let groups := (gs.groups.filter (fun q => ¬ q.1 = g2)).map
              (fun q => if q.1 = g1 then (q.1, q.2 ++ l2) else q)
            { gs with cmap := cmap, groups := groups }
        | none => { gs with cmap := cmap }
      else gs
  | some g1, none =>
      { gs with cmap := gs.cmap ++ [(key2, g1)],
                groups := gs.groups.map
                  (fun q => if q.1 = g1 then (q.1, q.2 ++ [key2]) else q) }
  | none, some g2 =>
      { gs with cmap := gs.cmap ++ [(key1, g2)],
                groups := gs.groups.map
                  (fun q => if q.1 = g2 then (q.1, q.2 ++ [key1]) else q) }
  | none, none =>
      let gid := "group_" ++ toString gs.next
      { cmap := gs.cmap ++ [(key1, gid), (key2, gid)],
        groups := gs.groups ++ [(gid, [key1, key2])],
        next := gs.next + 1 }

/-- Step 1 over every explicit connection recorded on every component. -/
def groupStep1 (comps : List (String × Component)) : GroupState :=
  comps.foldl (fun gs p =>
    p.2.connectedTo.foldl (fun gs conn =>
      conn.2.foldl (fun gs other =>
        groupPair (p.1, conn.1) other gs) gs) gs) ⟨[], [], 0⟩

/-- Step 2: every terminal still without a group becomes a singleton. -/
def groupStep2 (comps : List (String × Component)) (gs : GroupState) :
    GroupState :=
  comps.foldl (fun gs p =>
    p.2.kind.terminals.foldl (fun gs conn =>
      if (lookupA (p.1, conn) gs.cmap).isSome then gs
      else
        let gid := "group_" ++ toString gs.next
        { cmap := gs.cmap ++ [((p.1, conn), gid)],
          groups := gs.groups ++ [(gid, [(p.1, conn)])],
          next := gs.next + 1 }) gs) gs

/-- Step 3: one node per group; members are added in list order, skipping
keys whose component no longer exists and deduplicating, like
`Node.add_component`.  Fresh nodes start at 0 volts. -/
def buildNodes (comps : List (String × Component)) :
    List (String × SimNode) :=
  let gs := groupStep2 comps (groupStep1 comps)
  gs.groups.map (fun q =>
    (q.1, { members := q.2.foldl (fun ms key =>
              match lookupA key.1 comps with
              | some _ => if key ∈ ms then ms else ms ++ [key]
              | none => ms) [],
            voltage := 0 }))

/-- Step 4, priority 1: the node of the `gnd` terminal of the first
Ground component whose node exists. -/
def groundFromGroundComp (comps : List (String × Component))
    (ns : List (String × SimNode)) : Option String :=
  comps.findSome? (fun p =>
    if p.2.kind = .ground then findNodeIn ns p.1 "gnd" else none)

/-- Step 4, priority 2: the node of the `neg` terminal of the first DC or
AC voltage source whose node exists. -/
def groundFromSourceNeg (comps : List (String × Component))
    (ns : List (String × SimNode)) : Option String :=
  comps.findSome? (fun p =>
    if p.2.kind = .dcSource ∨ p.2.kind = .acSource then
      findNodeIn ns p.1 "neg"
    else none)

/-- The ground id chosen by step 4 from the freshly built nodes. -/
def chooseGround (comps : List (String × Component))
    (ns : List (String × SimNode)) : String :=
  match groundFromGroundComp comps ns with
  | some g => g
  | none =>
      match groundFromSourceNeg comps ns with
      | some g => g
      | none =>
          match ns with
          | q :: _ => q.1
          | [] => "default_ground"

/-- `build_circuit_from_components`: rebuild the node map from scratch,
choose the ground node by the four-way priority, pin its voltage to 0
(synthesizing an empty `default_ground` node when there are no nodes). -/
def buildCircuit (s : Sim) : Sim :=
  let ns := buildNodes s.components
  let g := chooseGround s.components ns
  let ns' := if ns = [] then [(g, { members := [], voltage := 0 })]
             else writeNode g 0 ns
  { s with nodes := ns', groundId := some g }

/-! ### Analysis aids for the reset-determinism claim -/

/-- The last write among `ws` hitting key `k`, starting from `v`. -/
def writeFold (ws : List (String × ℚ)) (k : String) (v : ℚ) : ℚ :=
  ws.foldl (fun acc wv => if k = wv.1 then wv.2 else acc) v

/-- A sequence of node-voltage writes applied in order. -/
def applyWrites (ws : List (String × ℚ)) (ns : List (String × SimNode)) :
    List (String × SimNode) :=
  ws.foldl (fun ns wv => writeNode wv.1 wv.2 ns) ns

/-- The node-voltage writes performed by the DC pass of `solve_circuit`,
in execution order. -/
def dcPlan : List (String × Component) → List (String × SimNode) →
    List (String × ℚ)
  | [], _ => []
  | p :: rest, ns =>
      if p.2.kind = .dcSource then
        ((findNodeIn ns p.1 "pos").map
            (fun nid => (nid, getNumProp p.2 "voltage" 5))).toList ++
        ((findNodeIn ns p.1 "neg").map (fun nid => (nid, (0 : ℚ)))).toList ++
        dcPlan rest ns
      else dcPlan rest ns

/-- All node-voltage writes of `solve_circuit`: ground first, then the DC
pass. -/
def solvePlan (comps : List (String × Component))
    (ns : List (String × SimNode)) (g : String) : List (String × ℚ) :=
  (g, 0) :: dcPlan comps ns

/-- The node ids whose voltage a tick may overwrite. -/
def writtenIds (s : Sim) : List String :=
  match s.groundId with
  | some g => (solvePlan s.components s.nodes g).map Prod.fst
  | none => []

/-- The id/member skeleton of a node map: everything except voltages. -/
def nodeSkeleton (ns : List (String × SimNode)) :
    List (String × List (String × String)) :=
  ns.map (fun p => (p.1, p.2.members))

/-- Node maps with the same skeleton whose voltages agree outside `w`. -/
def nodesRel (w : List String) (ns ns' : List (String × SimNode)) : Prop :=
  List.Forall₂ (fun p q => p.1 = q.1 ∧ p.2.members = q.2.members ∧
    (p.1 ∉ w → p.2.voltage = q.2.voltage)) ns ns'

/-- Everything a tick preserves about one component: identity, kind,
properties, connections, and (for non-AC components) the private clock. -/
def skelC (c c' : Component) : Prop :=
  c'.id = c.id ∧ c'.kind = c.kind ∧ c'.props = c.props ∧
  c'.connectedTo = c.connectedTo ∧
  (c.kind ≠ CompKind.acSource → c'.acClock = c.acClock)

/-- `skelC` lifted to a keyed entry. -/
def entrySkel (p q : String × Component) : Prop :=
  p.1 = q.1 ∧ skelC p.2 q.2

/-- Two simulator states that a tick cannot tell apart for the purpose of
component-state trajectories: equal components and control fields, an
existing ground, and node maps differing at most in the voltages the
solver rewrites anyway. -/
def simRel (s s' : Sim) : Prop :=
  s.components = s'.components ∧ s.groundId = s'.groundId ∧
  s.groundId.isSome = true ∧ s.timeStep = s'.timeStep ∧
  s.running = s'.running ∧ s.paused = s'.paused ∧
  nodesRel (writtenIds s) s.nodes s'.nodes

/-! ### Concrete circuits used as test vehicles -/

/-- A freshly constructed component: default state, no connections, zero
private clock, like `BaseComponent.__init__`. -/
def mkComp (id : String) (k : CompKind) (props : List (String × SVal)) :
    Component :=
  { id := id, kind := k, props := props, connectedTo := [],
    state := initState k props, acClock := 0 }

/-- An empty simulator with the configured defaults
(`SIMULATION_TIMESTEP = 0.001`, history cap 1000). -/
def emptySim : Sim :=
  { components := [], nodes := [], groundId := none, timeStep := 1/1000,
    simulationTime := 0, running := false, paused := false, history := [],
    historyLength := 1000 }

/-- A simulator holding one disconnected resistor. -/
def oneResistorSim : Sim :=
  { emptySim with components := [("R1", mkComp "R1" .resistor [])] }

/-- The voltage-divider circuit of the specification: a 10 V DC source
feeding two 1 kOhm resistors in series back to the source and an attached
ground symbol, then built and started. -/
def dividerSim : Sim :=
  let s := { emptySim with components :=
    [("V1", mkComp "V1" .dcSource [("voltage", .num 10)]),
     ("R1", mkComp "R1" .resistor [("resistance", .num 1000)]),
     ("R2", mkComp "R2" .resistor [("resistance", .num 1000)]),
     ("G1", mkComp "G1" .ground [])] }
  let s := (connectComponentsAt s "V1" "pos" "R1" "p1").2
  let s := (connectComponentsAt s "R1" "p2" "R2" "p1").2
  let s := (connectComponentsAt s "R2" "p2" "V1" "neg").2
  let s := (connectComponentsAt s "G1" "gnd" "V1" "neg").2
  startSimulation (buildCircuit s)

/-- A built, running simulator holding a single AC voltage source. -/
def acSim : Sim :=
  startSimulation (buildCircuit
    { emptySim with components := [("A1", mkComp "A1" .acSource [])] })

section Theorems

attribute [local semireducible] Rat.mul Rat.add Rat.sub Rat.inv

theorem lookupA_isSome_iff {κ α : Type} [DecidableEq κ] (k : κ)
    (l : List (κ × α)) :
    (lookupA k l).isSome = true ↔ k ∈ l.map Prod.fst := by
  induction l with
  | nil => simp [lookupA]
  | cons a rest ih =>
      by_cases ha : a.1 = k
      · simp [lookupA, ha]
      · simp only [lookupA, if_neg ha, List.map_cons, List.mem_cons, ih]
        constructor
        · intro h
          exact Or.inr h
        · rintro (h | h)
          · exact absurd h.symm ha
          · exact h

theorem setA_map_fst_present {κ α : Type} [DecidableEq κ] (k : κ) (v : α)
    (l : List (κ × α)) (h : (lookupA k l).isSome = true) :
    (setA k v l).map Prod.fst = l.map Prod.fst := by
  induction l with
  | nil => simp [lookupA] at h
  | cons a rest ih =>
      by_cases ha : a.1 = k
      · simp [setA, ha]
      · have h' : (lookupA k rest).isSome = true := by
          simpa [lookupA, ha] using h
        simp [setA, ha, ih h']

theorem lookupA_setA_self {κ α : Type} [DecidableEq κ] (k : κ) (v : α)
    (l : List (κ × α)) : lookupA k (setA k v l) = some v := by
  induction l with
  | nil => simp [setA, lookupA]
  | cons a rest ih =>
      by_cases ha : a.1 = k
      · simp [setA, ha, lookupA]
      · simp [setA, ha, lookupA, ih]

theorem lookupA_setA_ne {κ α : Type} [DecidableEq κ] (k k' : κ) (v : α)
    (l : List (κ × α)) (h : k' ≠ k) :
    lookupA k' (setA k v l) = lookupA k' l := by
  have hk : ¬ k = k' := fun hc => h hc.symm
  induction l with
  | nil => simp [setA, lookupA, hk]
  | cons a rest ih =>
      by_cases ha : a.1 = k
      · simp [setA, ha, lookupA, hk]
      · simp [setA, ha, lookupA, ih]

theorem applyOne_map_fst (st : List (String × SVal)) (p : String × SVal) :
    (applyOne st p).map Prod.fst = st.map Prod.fst := by
  unfold applyOne
  by_cases h : (lookupA p.1 st).isSome = true
  · rw [if_pos h]
    cases hv : p.2 with
    | dict d =>
        cases hl : lookupA p.1 st with
        | none => simp_all
        | some sv =>
            cases sv with
            | dict m => exact setA_map_fst_present _ _ _ h
            | num q => rfl
            | bool b => rfl
            | str s => rfl
    | num q => exact setA_map_fst_present _ _ _ h
    | bool b => exact setA_map_fst_present _ _ _ h
    | str s => exact setA_map_fst_present _ _ _ h
  · rw [if_neg h]

theorem lookupA_isSome_congr {κ α β : Type} [DecidableEq κ] (k : κ)
    (l : List (κ × α)) (l' : List (κ × β))
    (h : l.map Prod.fst = l'.map Prod.fst) :
    (lookupA k l).isSome = (lookupA k l').isSome := by
  by_cases hm : k ∈ l.map Prod.fst
  · have h1 : (lookupA k l).isSome = true := (lookupA_isSome_iff k l).mpr hm
    have h2 : (lookupA k l').isSome = true :=
      (lookupA_isSome_iff k l').mpr (h ▸ hm)
    rw [h1, h2]
  · have h1 : ¬ (lookupA k l).isSome = true :=
      fun hc => hm ((lookupA_isSome_iff k l).mp hc)
    have h2 : ¬ (lookupA k l').isSome = true :=
      fun hc => hm (h ▸ (lookupA_isSome_iff k l').mp hc)
    rw [Bool.not_eq_true] at h1 h2
    rw [h1, h2]

/-- C10: `apply` merges only categories already present; any update whose
top-level key is absent from the state is silently dropped, and the list
of top-level state keys is unchanged by every `apply` call. -/
theorem c10_apply_preserves_top_keys (st upd : List (String × SVal)) :
    (applyUpdates st upd).map Prod.fst = st.map Prod.fst ∧
    applyUpdates st upd =
      applyUpdates st (upd.filter (fun p => (lookupA p.1 st).isSome)) := by
  induction upd generalizing st with
  | nil => exact ⟨rfl, rfl⟩
  | cons p rest ih =>
      have hfold : applyUpdates st (p :: rest) =
          applyUpdates (applyOne st p) rest := rfl
      by_cases hp : (lookupA p.1 st).isSome = true
      · have hkeys : (applyOne st p).map Prod.fst = st.map Prod.fst :=
          applyOne_map_fst st p
        have hfilter : rest.filter
              (fun q => (lookupA q.1 (applyOne st p)).isSome) =
            rest.filter (fun q => (lookupA q.1 st).isSome) := by
          refine List.filter_congr ?_
          intro q _
          exact lookupA_isSome_congr q.1 _ _ hkeys
        constructor
        · rw [hfold, (ih (applyOne st p)).1, hkeys]
        · rw [hfold, (ih (applyOne st p)).2, hfilter]
          have hfr : (p :: rest).filter
                (fun q => (lookupA q.1 st).isSome) =
              p :: rest.filter (fun q => (lookupA q.1 st).isSome) := by
            simp [List.filter_cons, hp]
          rw [hfr]
          have : applyUpdates st
              (p :: rest.filter (fun q => (lookupA q.1 st).isSome)) =
              applyUpdates (applyOne st p)
                (rest.filter (fun q => (lookupA q.1 st).isSome)) := rfl
          rw [this]
      · have habs : applyOne st p = st := by
          unfold applyOne
          rw [if_neg hp]
        have hfr : (p :: rest).filter
              (fun q => (lookupA q.1 st).isSome) =
            rest.filter (fun q => (lookupA q.1 st).isSome) := by
          simp [List.filter_cons, hp]
        constructor
        · rw [hfold, habs, (ih st).1]
        · rw [hfold, habs, hfr, (ih st).2]

/-- Witness for C10 at a concrete state and update list with an absent key. -/
theorem c10_apply_preserves_top_keys_witness :
    (applyUpdates [("power", SVal.num 0)]
        [("brightness", SVal.num 1)]).map Prod.fst =
      [("power", SVal.num 0)].map Prod.fst ∧
    applyUpdates [("power", SVal.num 0)] [("brightness", SVal.num 1)] =
      applyUpdates [("power", SVal.num 0)]
        (([("brightness", SVal.num 1)] :
            List (String × SVal)).filter
          (fun p => (lookupA p.1 [("power", SVal.num 0)]).isSome)) :=
  c10_apply_preserves_top_keys [("power", SVal.num 0)]
    [("brightness", SVal.num 1)]

/-! ### C9: LED brightness -/

/-- In the conducting branch, the brightness computed by `LED.calculate`
equals the current clamped to `[0, 1]` after division by `max_current`. -/
theorem ledCompute_conducting_brightness (fv maxI vA vC : ℚ)
    (hmax : 0 < maxI)
    (h : (ledCompute fv maxI vA vC).2.1 = true) :
    (ledCompute fv maxI vA vC).2.2 =
      max 0 (min 1 ((ledCompute fv maxI vA vC).1 / maxI)) := by
  unfold ledCompute at *
  by_cases hc : vA - vC > fv * (9/10)
  · simp only [if_pos hc] at *
    set i : ℚ := if (vA - vC - fv) / (1/10) > maxI then maxI
                 else (vA - vC - fv) / (1/10) with hi
    have hge : vA - vC ≥ fv * (9/10) := le_of_lt hc
    by_cases hpos : i > 0
    · simp only [if_pos (And.intro hpos hge)]
      have hdiv : 0 < i / maxI := div_pos hpos hmax
      have : 0 ≤ min 1 (i / maxI) := le_min (by norm_num) (le_of_lt hdiv)
      exact (max_eq_right this).symm
    · simp only [hge, and_true]
      rw [if_neg hpos]
      push_neg at hpos
      have hdiv : i / maxI ≤ 0 := div_nonpos_of_nonpos_of_nonneg hpos
        (le_of_lt hmax)
      have h1 : min 1 (i / maxI) = i / maxI :=
        min_eq_right (le_trans hdiv (by norm_num))
      rw [h1, max_eq_left hdiv]
  · simp only [if_neg hc] at h
    simp at h

/-- C9 counterexample: an LED with forward voltage 2 and max current 0.02
at 1.9 V across it is classified as conducting while its computed current
is negative; the brightness is 0, not `min 1 (current / max_current)`. -/
theorem c9_counterexample :
    (ledCompute 2 (1/50) (19/10) 0).2.1 = true ∧
    (ledCompute 2 (1/50) (19/10) 0).1 = -1 ∧
    (ledCompute 2 (1/50) (19/10) 0).2.2 = 0 ∧
    (ledCompute 2 (1/50) (19/10) 0).2.2 ≠
      min 1 ((ledCompute 2 (1/50) (19/10) 0).1 / (1/50)) := by
  refine ⟨?_, ?_, ?_, ?_⟩ <;> decide

/-- C9 (amended): with a positive `max_current`, the LED brightness is 0
whenever `conducting` is false, equals
`clamp(current / max_current, 0, 1)` whenever `conducting` is true
(which is `min 1 (current / max_current)` for positive currents), and is
non-decreasing in the computed current over the conducting range. -/
theorem c9_led_brightness (fv maxI vA vC : ℚ) (hmax : 0 < maxI) :
    ((ledCompute fv maxI vA vC).2.1 = false →
      (ledCompute fv maxI vA vC).2.2 = 0) ∧
    ((ledCompute fv maxI vA vC).2.1 = true →
      (ledCompute fv maxI vA vC).2.2 =
        max 0 (min 1 ((ledCompute fv maxI vA vC).1 / maxI))) ∧
    ((ledCompute fv maxI vA vC).2.1 = true →
      0 < (ledCompute fv maxI vA vC).1 →
      (ledCompute fv maxI vA vC).2.2 =
        min 1 ((ledCompute fv maxI vA vC).1 / maxI)) ∧
    (∀ vA2 vC2, (ledCompute fv maxI vA vC).2.1 = true →
      (ledCompute fv maxI vA2 vC2).2.1 = true →
      (ledCompute fv maxI vA vC).1 ≤ (ledCompute fv maxI vA2 vC2).1 →
      (ledCompute fv maxI vA vC).2.2 ≤ (ledCompute fv maxI vA2 vC2).2.2) := by
  refine ⟨?_, ?_, ?_, ?_⟩
  · intro h
    unfold ledCompute at *
    by_cases hc : vA - vC > fv * (9/10)
    · simp only [if_pos hc] at h
      simp at h
    · simp only [if_neg hc] at *
      by_cases hn : vA - vC < 0
      · simp only [if_pos hn]
        norm_num
      · simp only [if_neg hn]
        norm_num
  · exact ledCompute_conducting_brightness fv maxI vA vC hmax
  · intro h hpos
    rw [ledCompute_conducting_brightness fv maxI vA vC hmax h]
    have hdiv : 0 < (ledCompute fv maxI vA vC).1 / maxI := div_pos hpos hmax
    exact max_eq_right (le_min (by norm_num) (le_of_lt hdiv))
  · intro vA2 vC2 h1 h2 hle
    rw [ledCompute_conducting_brightness fv maxI vA vC hmax h1,
        ledCompute_conducting_brightness fv maxI vA2 vC2 hmax h2]
    refine max_le_max (le_refl 0) (min_le_min (le_refl 1) ?_)
    exact div_le_div_of_nonneg_right hle (le_of_lt hmax)

/-- Witness for C9 at a concrete conducting LED. -/
theorem c9_led_brightness_witness :
    (0 : ℚ) < 1/50 ∧ (ledCompute 2 (1/50) 3 0).2.2 =
      max 0 (min 1 ((ledCompute 2 (1/50) 3 0).1 / (1/50))) :=
  ⟨by norm_num,
   (c9_led_brightness 2 (1/50) 3 0 (by norm_num)).2.1 (by decide)⟩

/-! ### C4: self-connection -/

/-- C4 counterexample: connecting terminal `p1` of resistor `R1` to itself
returns failure, yet the connection state is mutated: the self-pair has
been recorded once in `connected_to`. -/
theorem c4_counterexample :
    (connectComponentsAt oneResistorSim "R1" "p1" "R1" "p1").1 = false ∧
    (connectComponentsAt oneResistorSim "R1" "p1" "R1" "p1").2.components ≠
      oneResistorSim.components ∧
    (connectComponentsAt oneResistorSim "R1" "p1" "R1" "p1").2.components.map
        (fun p => (p.1, p.2.connectedTo)) =
      [("R1", [("p1", [("R1", "p1")])])] := by
  refine ⟨?_, ?_, ?_⟩ <;> decide

/-- C4 (amended): a self-connection of a valid terminal is rejected (the
operation returns failure), but the component is left mutated: the first
of the two symmetric `connect` calls has already appended the self-pair,
which survives in `connected_to`. -/
theorem c4_self_connection (s : Sim) (cid t : String) (c : Component)
    (hc : lookupA cid s.components = some c) (ht : t ∈ c.kind.terminals) :
    (connectComponentsAt s cid t cid t).1 = false ∧
    ∃ c', lookupA cid (connectComponentsAt s cid t cid t).2.components =
        some c' ∧
      (cid, t) ∈ (lookupA t c'.connectedTo).getD [] := by
  have hcond : ¬ (t ∉ c.kind.terminals ∨ t ∉ c.kind.terminals) := by
    simp [ht]
  by_cases hmem : (cid, t) ∈ (lookupA t c.connectedTo).getD []
  · have hcc : compConnect c t cid c.kind t = (false, c) := by
      unfold compConnect
      rw [if_neg (by simp [ht]), if_neg (by simp [ht]), if_pos hmem]
    simp only [connectComponentsAt, hc, if_neg hcond, eq_self_iff_true,
      if_true, ite_true, hcc]
    refine ⟨rfl, c, ?_, hmem⟩
    simp [lookupA_setA_self, hcc]
  · set ct := setA t (((lookupA t c.connectedTo).getD []) ++ [(cid, t)])
      c.connectedTo with hct
    set c' : Component := { c with connectedTo := ct } with hc'
    have hcc : compConnect c t cid c.kind t = (true, c') := by
      unfold compConnect
      rw [if_neg (by simp [ht]), if_neg (by simp [ht]), if_neg hmem]
    have hlst : (lookupA t c'.connectedTo).getD [] =
        ((lookupA t c.connectedTo).getD []) ++ [(cid, t)] := by
      rw [hc']
      simp only [hct]
      simp [lookupA_setA_self]
    have hmem' : (cid, t) ∈ (lookupA t c'.connectedTo).getD [] := by
      rw [hlst]
      exact List.mem_append_right _ (List.mem_singleton.mpr rfl)
    have hkind : c'.kind = c.kind := by rw [hc']
    have hcc2 : compConnect c' t cid c.kind t = (false, c') := by
      unfold compConnect
      rw [if_neg (by rw [hkind]; simp [ht]), if_neg (by simp [ht]),
          if_pos hmem']
    simp only [connectComponentsAt, hc, if_neg hcond, eq_self_iff_true,
      if_true, ite_true, hcc, hcc2]
    refine ⟨rfl, c', ?_, hmem'⟩
    simp [lookupA_setA_self, hcc, hcc2]

/-- Witness for C4 at the concrete one-resistor simulator. -/
theorem c4_self_connection_witness :
    lookupA "R1" oneResistorSim.components =
      some (mkComp "R1" .resistor []) ∧
    "p1" ∈ (mkComp "R1" .resistor []).kind.terminals ∧
    ((connectComponentsAt oneResistorSim "R1" "p1" "R1" "p1").1 = false ∧
     ∃ c', lookupA "R1"
         (connectComponentsAt oneResistorSim "R1" "p1" "R1" "p1").2.components
         = some c' ∧
       ("R1", "p1") ∈ (lookupA "p1" c'.connectedTo).getD []) :=
  ⟨by decide, by decide,
   c4_self_connection oneResistorSim "R1" "p1" (mkComp "R1" .resistor [])
     (by decide) (by decide)⟩

/-! ### C2: reset -/

/-- C2 counterexample: on the running AC demo simulator, `reset` leaves
`running` true, contradicting the claimed transition to stopped. -/
theorem c2_counterexample :
    acSim.running = true ∧ (resetSimulation acSim).running = true := by
  constructor <;> decide

/-- C2 (amended): `reset` zeroes the simulation time, clears the history
and reinitializes every component state to its `_init_state` value, but it
does not transition to stopped: `running` (and `paused`) are untouched. -/
theorem c2_reset_behavior (s : Sim) :
    (resetSimulation s).simulationTime = 0 ∧
    (resetSimulation s).history = [] ∧
    (∀ p ∈ (resetSimulation s).components,
      p.2.state = initState p.2.kind p.2.props) ∧
    (resetSimulation s).running = s.running ∧
    (resetSimulation s).paused = s.paused := by
  refine ⟨rfl, rfl, ?_, rfl, rfl⟩
  intro p hp
  simp only [resetSimulation, List.mem_map] at hp
  obtain ⟨q, _, hq⟩ := hp
  rw [← hq]

/-- Witness for C2 at the AC demo simulator. -/
theorem c2_reset_behavior_witness :
    (resetSimulation acSim).simulationTime = 0 ∧
    (resetSimulation acSim).history = [] ∧
    (∀ p ∈ (resetSimulation acSim).components,
      p.2.state = initState p.2.kind p.2.props) ∧
    (resetSimulation acSim).running = acSim.running ∧
    (resetSimulation acSim).paused = acSim.paused :=
  c2_reset_behavior acSim

/-! ### C5: the elapsed-time override -/

/-- `solve_circuit` changes only the component and node maps. -/
theorem solveCircuit_fields (s : Sim) :
    (solveCircuit s).groundId = s.groundId ∧
    (solveCircuit s).timeStep = s.timeStep ∧
    (solveCircuit s).simulationTime = s.simulationTime ∧
    (solveCircuit s).running = s.running ∧
    (solveCircuit s).paused = s.paused ∧
    (solveCircuit s).history = s.history ∧
    (solveCircuit s).historyLength = s.historyLength := by
  unfold solveCircuit
  cases hg : s.groundId <;> simp [hg]

/-- C5 counterexample: supplying the elapsed-time override 1/2 still
advances simulation time by the fixed step 1/1000, and the AC component
clock (reported in its `time` state entry) also advances by 1/1000. -/
theorem c5_counterexample :
    (updateSim waveZero (some (1/2)) acSim).simulationTime = 1/1000 ∧
    ¬ (updateSim waveZero (some (1/2)) acSim).simulationTime = 1/2 ∧
    (updateSim waveZero (some (1/2)) acSim).components.map
      (fun p => stateNum p.2 "time") = [1/1000] := by
  refine ⟨?_, ?_, ?_⟩ <;> decide

/-- C5 (amended): the elapsed-time override is accepted and ignored.
`update` produces the same state for any override value, and a running,
unpaused, nonempty tick always advances simulation time by the fixed
configured step. -/
theorem c5_fixed_step (w : Wave) (e e' : Option ℚ) (s : Sim) :
    updateSim w e s = updateSim w e' s ∧
    (s.running = true → s.paused = false → s.components ≠ [] →
      (updateSim w e s).simulationTime = s.simulationTime + s.timeStep) := by
  constructor
  · rfl
  · intro hr hp hc
    have hcond : ¬ (s.running = false ∨ s.paused = true ∨
        s.components = []) := by
      simp [hr, hp, hc]
    unfold updateSim
    rw [if_neg hcond]
    simp [(solveCircuit_fields s).2.2.1, (solveCircuit_fields s).2.1]

/-- Witness for C5 at the AC demo simulator with override 2. -/
theorem c5_fixed_step_witness :
    acSim.running = true ∧ acSim.paused = false ∧ acSim.components ≠ [] ∧
    (updateSim waveZero (some 2) acSim).simulationTime =
      acSim.simulationTime + acSim.timeStep :=
  ⟨by decide, by decide, by decide,
   (c5_fixed_step waveZero (some 2) none acSim).2 (by decide) (by decide)
     (by decide)⟩

/-! ### C7: topology idempotence -/

/-- C7: rebuilding the topology twice in a row with no intervening
mutation yields the identical node partition and ground choice; the
rebuild itself never mutates the component map it derives them from. -/
theorem c7_topology_idempotent (s : Sim) :
    (buildCircuit s).components = s.components ∧
    (buildCircuit (buildCircuit s)).nodes = (buildCircuit s).nodes ∧
    (buildCircuit (buildCircuit s)).groundId = (buildCircuit s).groundId :=
  ⟨rfl, rfl, rfl⟩

/-! ### C6: ground selection -/

theorem lookupA_mem {κ α : Type} [DecidableEq κ] {k : κ} {v : α}
    {l : List (κ × α)} (h : lookupA k l = some v) : (k, v) ∈ l := by
  induction l with
  | nil => simp [lookupA] at h
  | cons a rest ih =>
      obtain ⟨a1, a2⟩ := a
      by_cases ha : a1 = k
      · simp only [lookupA, if_pos ha] at h
        cases h
        rw [← ha]
        exact List.mem_cons_self _ _
      · simp only [lookupA, if_neg ha] at h
        exact List.mem_cons_of_mem _ (ih h)

theorem findNodeIn_present {ns : List (String × SimNode)} {cid conn g : String}
    (h : findNodeIn ns cid conn = some g) : (lookupA g ns).isSome = true := by
  unfold findNodeIn findNodeEntry at h
  cases hfe : ns.find? (fun q => (cid, conn) ∈ q.2.members) with
  | none => rw [hfe] at h; simp at h
  | some q =>
      rw [hfe] at h
      simp only [Option.map_some'] at h
      cases h
      have hq : q ∈ ns := List.mem_of_find?_eq_some hfe
      exact (lookupA_isSome_iff q.1 ns).mpr (List.mem_map_of_mem Prod.fst hq)

theorem groundFromGroundComp_present {comps : List (String × Component)}
    {ns : List (String × SimNode)} {g : String}
    (h : groundFromGroundComp comps ns = some g) :
    (lookupA g ns).isSome = true := by
  obtain ⟨p, _, he⟩ := List.exists_of_findSome?_eq_some h
  by_cases hk : p.2.kind = .ground
  · rw [if_pos hk] at he
    exact findNodeIn_present he
  · rw [if_neg hk] at he
    cases he

theorem groundFromSourceNeg_present {comps : List (String × Component)}
    {ns : List (String × SimNode)} {g : String}
    (h : groundFromSourceNeg comps ns = some g) :
    (lookupA g ns).isSome = true := by
  obtain ⟨p, _, he⟩ := List.exists_of_findSome?_eq_some h
  by_cases hk : p.2.kind = .dcSource ∨ p.2.kind = .acSource
  · rw [if_pos hk] at he
    exact findNodeIn_present he
  · rw [if_neg hk] at he
    cases he

theorem lookupA_writeNode_self (g : String) (v : ℚ)
    (ns : List (String × SimNode)) :
    lookupA g (writeNode g v ns) =
      (lookupA g ns).map (fun nd => { nd with voltage := v }) := by
  induction ns with
  | nil => simp [writeNode, lookupA]
  | cons a rest ih =>
      by_cases ha : a.1 = g
      · simp [writeNode, lookupA, ha]
      · rw [show writeNode g v (a :: rest) = a :: writeNode g v rest from by
          simp [writeNode, ha]]
        simp only [lookupA, if_neg ha]
        exact ih

/-- The ground chosen by a rebuild is present with voltage 0. -/
theorem buildCircuit_ground_voltage (s : Sim) :
    ∃ g nd, (buildCircuit s).groundId = some g ∧
      lookupA g (buildCircuit s).nodes = some nd ∧ nd.voltage = 0 := by
  refine ⟨chooseGround s.components (buildNodes s.components), ?_⟩
  by_cases hns : buildNodes s.components = []
  · refine ⟨{ members := [], voltage := 0 }, rfl, ?_, rfl⟩
    simp [buildCircuit, hns, lookupA]
  · have hkey : (lookupA (chooseGround s.components (buildNodes s.components))
        (buildNodes s.components)).isSome = true := by
      unfold chooseGround
      cases h1 : groundFromGroundComp s.components (buildNodes s.components)
      case some g1 => exact groundFromGroundComp_present h1
      case none =>
        cases h2 : groundFromSourceNeg s.components (buildNodes s.components)
        case some g2 => exact groundFromSourceNeg_present h2
        case none =>
          cases hlist : buildNodes s.components with
          | nil => exact absurd hlist hns
          | cons q rest => simp [lookupA]
    cases hl : lookupA (chooseGround s.components (buildNodes s.components))
        (buildNodes s.components) with
    | none => rw [hl] at hkey; simp at hkey
    | some nd =>
        refine ⟨{ nd with voltage := 0 }, rfl, ?_, rfl⟩
        have : (buildCircuit s).nodes =
            writeNode (chooseGround s.components (buildNodes s.components)) 0
              (buildNodes s.components) := by
          simp [buildCircuit, hns]
        rw [this, lookupA_writeNode_self, hl]
        rfl

/-- C6: after every rebuild a ground node exists, its voltage is pinned to
0, and its id follows the priority: the node of the first Ground
component, else the node of the `neg` terminal of the first DC or AC
source, else the first existing node, else a synthesized
`default_ground` node when there are no nodes at all. -/
theorem c6_ground_selection (s : Sim) :
    ∃ g, (buildCircuit s).groundId = some g ∧
      (∃ nd, lookupA g (buildCircuit s).nodes = some nd ∧ nd.voltage = 0) ∧
      (match groundFromGroundComp s.components (buildNodes s.components),
             groundFromSourceNeg s.components (buildNodes s.components),
             buildNodes s.components with
       | some g1, _, _ => g = g1
       | none, some g2, _ => g = g2
       | none, none, q :: _ => g = q.1
       | none, none, [] => g = "default_ground") := by
  obtain ⟨g, nd, hg, hl, hv⟩ := buildCircuit_ground_voltage s
  refine ⟨g, hg, ⟨nd, hl, hv⟩, ?_⟩
  have hgc : g = chooseGround s.components (buildNodes s.components) := by
    have : (buildCircuit s).groundId =
        some (chooseGround s.components (buildNodes s.components)) := rfl
    rw [this] at hg
    exact (Option.some.injEq _ _ ▸ hg).symm
  rw [hgc]
  unfold chooseGround
  cases h1 : groundFromGroundComp s.components (buildNodes s.components) with
  | some g1 => simp
  | none =>
      cases h2 : groundFromSourceNeg s.components (buildNodes s.components) with
      | some g2 => simp
      | none =>
          cases hlist : buildNodes s.components with
          | nil => simp
          | cons q rest => simp

/-! ### C8: bounded history -/

theorem mem_setA {κ α : Type} [DecidableEq κ] {kv : κ × α} {k : κ} {v : α}
    {l : List (κ × α)} (h : kv ∈ setA k v l) : kv = (k, v) ∨ kv ∈ l := by
  induction l with
  | nil => simpa [setA] using h
  | cons a rest ih =>
      by_cases ha : a.1 = k
      · simp only [setA, if_pos ha, List.mem_cons] at h
        rcases h with h | h
        · exact Or.inl h
        · exact Or.inr (List.mem_cons_of_mem _ h)
      · simp only [setA, if_neg ha, List.mem_cons] at h
        rcases h with h | h
        · exact Or.inr (h ▸ List.mem_cons_self _ _)
        · rcases ih h with h' | h'
          · exact Or.inl h'
          · exact Or.inr (List.mem_cons_of_mem _ h')

theorem pushHist_bound {cap : ℕ}
    {hist : List ((String × String) × List (ℚ × SVal))}
    (key : String × String) (t : ℚ) (v : SVal) (hcap : 1 ≤ cap)
    (hb : ∀ kv ∈ hist, kv.2.length ≤ cap) :
    ∀ kv ∈ pushHist cap hist key t v, kv.2.length ≤ cap := by
  intro kv hkv
  unfold pushHist at hkv
  rcases mem_setA hkv with he | hm
  · rw [he]
    dsimp only
    cases hl : lookupA key hist with
    | none =>
        simp only [hl, Option.getD_none, List.length_nil, List.drop_nil]
        by_cases hle : cap ≤ 0
        · exact absurd hcap (by omega)
        · simp only [if_neg hle, List.nil_append, List.length_cons,
            List.length_nil]
          omega
    | some ser =>
        have hser : ser.length ≤ cap := hb (key, ser) (lookupA_mem hl)
        simp only [hl, Option.getD_some]
        by_cases hle : cap ≤ ser.length
        · simp only [if_pos hle, List.length_append, List.length_drop,
            List.length_cons, List.length_nil]
          omega
        · simp only [if_neg hle, List.length_append, List.length_cons,
            List.length_nil]
          omega
  · exact hb kv hm

theorem foldl_pres {α β : Type} (P : α → Prop) (f : α → β → α)
    (hf : ∀ a b, P a → P (f a b)) :
    ∀ (l : List β) (a : α), P a → P (l.foldl f a) := by
  intro l
  induction l with
  | nil => intro a ha; exact ha
  | cons b rest ih => intro a ha; exact ih (f a b) (hf a b ha)

theorem recordState_bound {cap : ℕ}
    {hist : List ((String × String) × List (ℚ × SVal))}
    (cid : String) (t : ℚ) (st : List (String × SVal)) (hcap : 1 ≤ cap)
    (hb : ∀ kv ∈ hist, kv.2.length ≤ cap) :
    ∀ kv ∈ recordState cap hist cid t st, kv.2.length ≤ cap := by
  unfold recordState
  refine foldl_pres (fun h => ∀ kv ∈ h, kv.2.length ≤ cap) _ ?_ st hist hb
  intro h p hp
  cases hv : p.2 with
  | dict m =>
      exact foldl_pres (fun h => ∀ kv ∈ h, kv.2.length ≤ cap) _
        (fun h q hq => pushHist_bound _ _ _ hcap hq) m h hp
  | num q => exact pushHist_bound _ _ _ hcap hp
  | bool b => exact pushHist_bound _ _ _ hcap hp
  | str s => exact pushHist_bound _ _ _ hcap hp

theorem calcFold_hist_bound (w : Wave) (dt t : ℚ) {cap : ℕ}
    (order : List String) (comps : List (String × Component))
    (ns : List (String × SimNode))
    (hist : List ((String × String) × List (ℚ × SVal))) (hcap : 1 ≤ cap)
    (hb : ∀ kv ∈ hist, kv.2.length ≤ cap) :
    ∀ kv ∈ (calcFold w dt t cap order comps ns hist).2.2,
      kv.2.length ≤ cap := by
  unfold calcFold
  refine foldl_pres (fun acc => ∀ kv ∈ acc.2.2, kv.2.length ≤ cap) _ ?_
    order (comps, ns, hist) hb
  intro acc cid hacc
  unfold calcStep
  cases hl : lookupA cid acc.1 with
  | none => exact hacc
  | some c => exact recordState_bound cid t _ hcap hacc

/-- C8: the per-(component, key) history series stay within the configured
cap across every tick; when a series is at the cap the oldest sample is
evicted before the new one is appended (below the cap it is appended
as-is); the tick preserves the cap itself; and `solve_circuit` neither
changes nor reads the history (its result is unchanged under any
substitution of the history). -/
theorem c8_history_bounded (w : Wave) (e : Option ℚ) (s : Sim)
    (hcap : 1 ≤ s.historyLength)
    (hb : ∀ kv ∈ s.history, kv.2.length ≤ s.historyLength) :
    (∀ kv ∈ (updateSim w e s).history, kv.2.length ≤ s.historyLength) ∧
    (updateSim w e s).historyLength = s.historyLength ∧
    (∀ (cap : ℕ) hist (key : String × String) (t : ℚ) (v : SVal) ser,
      lookupA key hist = some ser → cap ≤ ser.length →
      lookupA key (pushHist cap hist key t v) =
        some (ser.drop 1 ++ [(t, v)])) ∧
    (∀ (cap : ℕ) hist (key : String × String) (t : ℚ) (v : SVal) ser,
      lookupA key hist = some ser → ser.length < cap →
      lookupA key (pushHist cap hist key t v) = some (ser ++ [(t, v)])) ∧
    (solveCircuit s).history = s.history ∧
    (∀ h', solveCircuit { s with history := h' } =
      { solveCircuit s with history := h' }) := by
  refine ⟨?_, ?_, ?_, ?_, (solveCircuit_fields s).2.2.2.2.2.1, ?_⟩
  · unfold updateSim
    by_cases hcond : (s.running = false ∨ s.paused = true ∨
        s.components = [])
    · rw [if_pos hcond]
      exact hb
    · rw [if_neg hcond]
      have hh : (solveCircuit s).history = s.history :=
        (solveCircuit_fields s).2.2.2.2.2.1
      have hlen : (solveCircuit s).historyLength = s.historyLength :=
        (solveCircuit_fields s).2.2.2.2.2.2
      refine calcFold_hist_bound w _ _ _ _ _ _ ?_ ?_
      · exact hcap
      · rw [hh]
        exact hb
  · unfold updateSim
    by_cases hcond : (s.running = false ∨ s.paused = true ∨
        s.components = [])
    · rw [if_pos hcond]
    · rw [if_neg hcond]
      exact (solveCircuit_fields s).2.2.2.2.2.2
  · intro cap hist key t v ser hl hle
    unfold pushHist
    rw [hl]
    simp only [Option.getD_some, if_pos hle]
    exact lookupA_setA_self _ _ _
  · intro cap hist key t v ser hl hlt
    unfold pushHist
    rw [hl]
    simp only [Option.getD_some, if_neg (by omega : ¬ cap ≤ ser.length)]
    exact lookupA_setA_self _ _ _
  · intro h'
    obtain ⟨comps, nodes, gid, ts, st, run, pau, hist, hlen⟩ := s
    cases gid <;> rfl

/-- Witness for C8: one tick of the divider circuit from empty history. -/
theorem c8_history_bounded_witness :
    1 ≤ dividerSim.historyLength ∧
    (∀ kv ∈ (updateSim waveZero none dividerSim).history,
      kv.2.length ≤ dividerSim.historyLength) :=
  ⟨by decide,
   (c8_history_bounded waveZero none dividerSim (by decide)
     (by decide)).1⟩

/-! ### C1: the voltage divider under the heuristic solver -/

/-- The tick-relevant observation of a simulator state: the fields that
determine the component and node maps of the next tick. -/
def obsE (s : Sim) :
    List (String × Component) × List (String × SimNode) × Option String ×
    ℚ × Bool × Bool :=
  (s.components, s.nodes, s.groundId, s.timeStep, s.running, s.paused)

/-- The component and node maps produced by the per-tick loop do not
depend on the recording time, the history cap or the history itself. -/
theorem calcFold_obs (w : Wave) (dt t t' : ℚ) (cap cap' : ℕ)
    (order : List String) :
    ∀ (comps : List (String × Component)) (ns : List (String × SimNode))
      (h h' : List ((String × String) × List (ℚ × SVal))),
    (calcFold w dt t cap order comps ns h).1 =
      (calcFold w dt t' cap' order comps ns h').1 ∧
    (calcFold w dt t cap order comps ns h).2.1 =
      (calcFold w dt t' cap' order comps ns h').2.1 := by
  induction order with
  | nil => intro comps ns h h'; exact ⟨rfl, rfl⟩
  | cons cid rest ih =>
      intro comps ns h h'
      have hfc : ∀ (tt : ℚ) (cc : ℕ) hh,
          calcFold w dt tt cc (cid :: rest) comps ns hh =
            rest.foldl (calcStep w dt tt cc)
              (calcStep w dt tt cc (comps, ns, hh) cid) :=
        fun _ _ _ => rfl
      cases hl : lookupA cid comps with
      | none =>
          have e1 : calcStep w dt t cap (comps, ns, h) cid = (comps, ns, h) := by
            unfold calcStep
            rw [hl]
          have e2 : calcStep w dt t' cap' (comps, ns, h') cid =
              (comps, ns, h') := by
            unfold calcStep
            rw [hl]
          rw [hfc t cap h, hfc t' cap' h', e1, e2]
          exact ih comps ns h h'
      | some c =>
          have e1 : calcStep w dt t cap (comps, ns, h) cid =
              (setA cid { c with
                  state := applyUpdates c.state
                    (componentCalculate w comps ns c dt).1,
                  acClock := (componentCalculate w comps ns c dt).2.2 } comps,
                (componentCalculate w comps ns c dt).2.1,
                recordState cap h cid t
                  (applyUpdates c.state
                    (componentCalculate w comps ns c dt).1)) := by
            unfold calcStep
            rw [hl]
          have e2 : calcStep w dt t' cap' (comps, ns, h') cid =
              (setA cid { c with
                  state := applyUpdates c.state
                    (componentCalculate w comps ns c dt).1,
                  acClock := (componentCalculate w comps ns c dt).2.2 } comps,
                (componentCalculate w comps ns c dt).2.1,
                recordState cap' h' cid t'
                  (applyUpdates c.state
                    (componentCalculate w comps ns c dt).1)) := by
            unfold calcStep
            rw [hl]
          rw [hfc t cap h, hfc t' cap' h', e1, e2]
          exact ih _ _ _ _

/-- `solve_circuit` output maps are determined by the component map, node
map and ground id alone. -/
theorem solveCircuit_obs (s s' : Sim) (hc : s.components = s'.components)
    (hn : s.nodes = s'.nodes) (hg : s.groundId = s'.groundId) :
    (solveCircuit s).components = (solveCircuit s').components ∧
    (solveCircuit s).nodes = (solveCircuit s').nodes := by
  unfold solveCircuit
  rw [hg]
  cases hgc : s'.groundId with
  | none => simp [hgc, hc, hn]
  | some g => simp [hgc, hc, hn]

/-- One tick is a function of the observation `obsE`. -/
theorem updateSim_obs (w : Wave) (e e' : Option ℚ) (s s' : Sim)
    (h : obsE s = obsE s') :
    obsE (updateSim w e s) = obsE (updateSim w e' s') := by
  have hc : s.components = s'.components := congrArg (·.1) h
  have hn : s.nodes = s'.nodes := congrArg (·.2.1) h
  have hg : s.groundId = s'.groundId := congrArg (·.2.2.1) h
  have ht : s.timeStep = s'.timeStep := congrArg (·.2.2.2.1) h
  have hr : s.running = s'.running := congrArg (·.2.2.2.2.1) h
  have hp : s.paused = s'.paused := congrArg (·.2.2.2.2.2) h
  unfold updateSim
  by_cases hcond : (s.running = false ∨ s.paused = true ∨ s.components = [])
  · rw [if_pos hcond, if_pos (by rw [← hr, ← hp, ← hc]; exact hcond)]
    exact h
  · rw [if_neg hcond, if_neg (by rw [← hr, ← hp, ← hc]; exact hcond)]
    obtain ⟨hsc, hsn⟩ := solveCircuit_obs s s' hc hn hg
    simp only [obsE, Prod.mk.injEq]
    have hgs : (solveCircuit s).groundId = (solveCircuit s').groundId := by
      rw [(solveCircuit_fields s).1, (solveCircuit_fields s').1, hg]
    have hts : (solveCircuit s).timeStep = (solveCircuit s').timeStep := by
      rw [(solveCircuit_fields s).2.1, (solveCircuit_fields s').2.1, ht]
    have hrs : (solveCircuit s).running = (solveCircuit s').running := by
      rw [(solveCircuit_fields s).2.2.2.1, (solveCircuit_fields s').2.2.2.1,
        hr]
    have hps : (solveCircuit s).paused = (solveCircuit s').paused := by
      rw [(solveCircuit_fields s).2.2.2.2.1,
        (solveCircuit_fields s').2.2.2.2.1, hp]
    refine ⟨?_, ?_, hgs, hts, hrs, hps⟩
    · rw [hsc, hsn, ht]
      exact (calcFold_obs w s'.timeStep s.simulationTime s'.simulationTime
        s.historyLength s'.historyLength _ _ _ _ _).1
    · rw [hsc, hsn, ht]
      exact (calcFold_obs w s'.timeStep s.simulationTime s'.simulationTime
        s.historyLength s'.historyLength _ _ _ _ _).2

/-- After one tick the divider circuit reaches its (component, node)
fixed point: a second tick observes the same maps. -/
theorem dividerSim_stable :
    obsE (updateSim waveZero none (updateSim waveZero none dividerSim)) =
      obsE (updateSim waveZero none dividerSim) := by
  decide

/-- Every ticked state of the divider observes like the first tick. -/
theorem dividerSim_obs_iter (n : ℕ) :
    obsE (iterTick waveZero none (n + 1) dividerSim) =
      obsE (updateSim waveZero none dividerSim) := by
  induction n with
  | zero => rfl
  | succ m ih =>
      have h := updateSim_obs waveZero none none _ _ ih
      exact h.trans dividerSim_stable

/-- C1: under the solver actually bound as `solve_circuit` (the heuristic
direct-propagation pass), the voltage-divider midpoint node voltage stays
exactly 0 after every number of ticks: it never reaches 5.0 within 1e-9.
The ground node is correctly pinned at exactly 0. -/
theorem c1_divider_midpoint_stays_zero (n : ℕ) :
    ((lookupA "group_2" (iterTick waveZero none n dividerSim).nodes).map
      SimNode.voltage = some 0) ∧
    ((lookupA "group_1" (iterTick waveZero none n dividerSim).nodes).map
      SimNode.voltage = some 0) ∧
    ((iterTick waveZero none n dividerSim).groundId = some "group_1") ∧
    (∃ v : ℚ,
      (lookupA "group_2" (iterTick waveZero none n dividerSim).nodes).map
        SimNode.voltage = some v ∧ 1/1000000000 < |v - 5|) := by
  cases n with
  | zero =>
      refine ⟨by decide, by decide, by decide, 0, by decide, by decide⟩
  | succ m =>
      have hobs := dividerSim_obs_iter m
      have hn : (iterTick waveZero none (m + 1) dividerSim).nodes =
          (updateSim waveZero none dividerSim).nodes :=
        congrArg (·.2.1) hobs
      have hg : (iterTick waveZero none (m + 1) dividerSim).groundId =
          (updateSim waveZero none dividerSim).groundId :=
        congrArg (·.2.2.1) hobs
      rw [hn, hg]
      refine ⟨by decide, by decide, by decide, 0, by decide, by decide⟩

/-! ### C3: reset determinism -/

theorem writeFold_cons (w : String × ℚ) (ws : List (String × ℚ))
    (k : String) (v : ℚ) :
    writeFold (w :: ws) k v = writeFold ws k (if k = w.1 then w.2 else v) :=
  rfl

theorem writeFold_not_mem {ws : List (String × ℚ)} {k : String} (v : ℚ)
    (h : k ∉ ws.map Prod.fst) : writeFold ws k v = v := by
  induction ws generalizing v with
  | nil => rfl
  | cons w rest ih =>
      simp only [List.map_cons, List.mem_cons, not_or] at h
      rw [writeFold_cons, if_neg h.1]
      exact ih v h.2

theorem writeFold_mem {ws : List (String × ℚ)} {k : String}
    (h : k ∈ ws.map Prod.fst) (v v' : ℚ) :
    writeFold ws k v = writeFold ws k v' := by
  induction ws generalizing v v' with
  | nil => simp at h
  | cons w rest ih =>
      by_cases hk : k = w.1
      · rw [writeFold_cons, writeFold_cons, if_pos hk, if_pos hk]
      · simp only [List.map_cons, List.mem_cons] at h
        rcases h with h | h
        · exact absurd h hk
        · rw [writeFold_cons, writeFold_cons, if_neg hk, if_neg hk]
          exact ih h v v'

theorem applyWrites_entry (ws : List (String × ℚ))
    (ns : List (String × SimNode)) :
    applyWrites ws ns = ns.map (fun p =>
      (p.1, { p.2 with voltage := writeFold ws p.1 p.2.voltage })) := by
  induction ws generalizing ns with
  | nil =>
      show ns = _
      induction ns with
      | nil => rfl
      | cons a rest ih2 =>
          rw [List.map_cons, ← ih2]
          rfl
  | cons w ws' ih =>
      rw [show applyWrites (w :: ws') ns =
            applyWrites ws' (writeNode w.1 w.2 ns) from rfl, ih]
      unfold writeNode
      rw [List.map_map]
      refine List.map_congr_left ?_
      intro p _
      by_cases hp : p.1 = w.1
      · simp [hp, writeFold_cons]
      · simp [hp, writeFold_cons]

theorem nodesRel_refl (w : List String) (ns : List (String × SimNode)) :
    nodesRel w ns ns := by
  induction ns with
  | nil => exact List.Forall₂.nil
  | cons a rest ih => exact List.Forall₂.cons ⟨rfl, rfl, fun _ => rfl⟩ ih

theorem nodesRel_skeleton {w : List String} {ns ns' : List (String × SimNode)}
    (h : nodesRel w ns ns') : nodeSkeleton ns = nodeSkeleton ns' := by
  induction h with
  | nil => rfl
  | cons h1 _ ih =>
      simp only [nodeSkeleton, List.map_cons, List.cons.injEq] at *
      exact ⟨by simp [Prod.mk.injEq, h1.1, h1.2.1], ih⟩

theorem nodesRel_trans {w : List String}
    {ns1 ns2 ns3 : List (String × SimNode)} (h1 : nodesRel w ns1 ns2)
    (h2 : nodesRel w ns2 ns3) : nodesRel w ns1 ns3 := by
  induction h1 generalizing ns3 with
  | nil =>
      cases h2
      exact List.Forall₂.nil
  | cons hab hrest ih =>
      cases h2 with
      | cons hbc hrest2 =>
          refine List.Forall₂.cons ⟨hab.1.trans hbc.1,
            hab.2.1.trans hbc.2.1, ?_⟩ (ih hrest2)
          intro hw
          exact (hab.2.2 hw).trans (hbc.2.2 (hab.1 ▸ hw))

theorem applyWrites_congr {ws : List (String × ℚ)}
    {ns ns' : List (String × SimNode)}
    (h : nodesRel (ws.map Prod.fst) ns ns') :
    applyWrites ws ns = applyWrites ws ns' := by
  rw [applyWrites_entry, applyWrites_entry]
  induction h with
  | nil => rfl
  | cons h1 _ ih =>
      rename_i a b l1 l2 _
      obtain ⟨hid, hmem, hv⟩ := h1
      simp only [List.map_cons, List.cons.injEq]
      refine ⟨?_, ih⟩
      have hvolt : writeFold ws a.1 a.2.voltage =
          writeFold ws b.1 b.2.voltage := by
        rw [← hid]
        by_cases hw : a.1 ∈ ws.map Prod.fst
        · exact writeFold_mem hw _ _
        · rw [writeFold_not_mem _ hw, writeFold_not_mem _ hw]
          exact hv hw
      simp only [Prod.mk.injEq, SimNode.mk.injEq]
      exact ⟨hid, hmem, hvolt⟩

theorem nodeSkeleton_writeNode (nid : String) (v : ℚ)
    (ns : List (String × SimNode)) :
    nodeSkeleton (writeNode nid v ns) = nodeSkeleton ns := by
  unfold nodeSkeleton writeNode
  rw [List.map_map]
  refine List.map_congr_left ?_
  intro p _
  by_cases hp : p.1 = nid <;> simp [hp]

theorem findNodeIn_skeleton {ns ns' : List (String × SimNode)}
    (h : nodeSkeleton ns = nodeSkeleton ns') (cid conn : String) :
    findNodeIn ns cid conn = findNodeIn ns' cid conn := by
  induction ns generalizing ns' with
  | nil =>
      cases ns' with
      | nil => rfl
      | cons b l => simp [nodeSkeleton] at h
  | cons a rest ih =>
      cases ns' with
      | nil => simp [nodeSkeleton] at h
      | cons b rest' =>
          simp only [nodeSkeleton, List.map_cons, List.cons.injEq,
            Prod.mk.injEq] at h
          obtain ⟨⟨hid, hmem⟩, hrest⟩ := h
          unfold findNodeIn findNodeEntry
          by_cases hc : (cid, conn) ∈ a.2.members
          · rw [List.find?_cons_of_pos _ (by simpa using hc),
                List.find?_cons_of_pos _ (by simp [← hmem, hc])]
            simp [hid]
          · rw [List.find?_cons_of_neg _ (by simpa using hc),
                List.find?_cons_of_neg _ (by simp [← hmem, hc])]
            exact ih hrest

theorem nodeSkeleton_applyWrites (ws : List (String × ℚ))
    (ns : List (String × SimNode)) :
    nodeSkeleton (applyWrites ws ns) = nodeSkeleton ns := by
  induction ws generalizing ns with
  | nil => rfl
  | cons w ws' ih =>
      rw [show applyWrites (w :: ws') ns =
            applyWrites ws' (writeNode w.1 w.2 ns) from rfl, ih,
          nodeSkeleton_writeNode]

theorem dcPlan_skeleton {ns ns' : List (String × SimNode)}
    (h : nodeSkeleton ns = nodeSkeleton ns')
    (comps : List (String × Component)) :
    dcPlan comps ns = dcPlan comps ns' := by
  induction comps with
  | nil => rfl
  | cons p rest ih =>
      by_cases hk : p.2.kind = CompKind.dcSource
      · simp only [dcPlan, if_pos hk, findNodeIn_skeleton h, ih]
      · simp only [dcPlan, if_neg hk, ih]

theorem nodeSkeleton_dcStep (ns : List (String × SimNode))
    (p : String × Component) :
    nodeSkeleton (dcStep ns p) = nodeSkeleton ns := by
  unfold dcStep
  by_cases h1 : (p.2.kind = CompKind.dcSource ∨ p.2.kind = CompKind.acSource)
  · rw [if_pos h1]
    by_cases h2 : p.2.kind = CompKind.dcSource
    · rw [if_pos h2]
      cases findNodeIn ns p.1 "pos" <;> cases findNodeIn ns p.1 "neg" <;>
        simp [nodeSkeleton_writeNode]
    · rw [if_neg h2]
  · rw [if_neg h1]

theorem dcStep_eq_applyWrites (ns : List (String × SimNode))
    (p : String × Component) (hk : p.2.kind = CompKind.dcSource) :
    dcStep ns p = applyWrites
      (((findNodeIn ns p.1 "pos").map
          (fun nid => (nid, getNumProp p.2 "voltage" 5))).toList ++
       ((findNodeIn ns p.1 "neg").map (fun nid => (nid, (0 : ℚ)))).toList)
      ns := by
  unfold dcStep
  rw [if_pos (Or.inl hk), if_pos hk]
  cases findNodeIn ns p.1 "pos" <;> cases findNodeIn ns p.1 "neg" <;> rfl

theorem solveDCPass_eq_applyWrites (comps : List (String × Component)) :
    ∀ ns, solveDCPass comps ns = applyWrites (dcPlan comps ns) ns := by
  induction comps with
  | nil => intro ns; rfl
  | cons p rest ih =>
      intro ns
      have hcons : solveDCPass (p :: rest) ns =
          solveDCPass rest (dcStep ns p) := rfl
      by_cases hk : p.2.kind = CompKind.dcSource
      · rw [hcons, ih (dcStep ns p),
            dcPlan_skeleton (nodeSkeleton_dcStep ns p) rest,
            dcStep_eq_applyWrites ns p hk]
        rw [show applyWrites (dcPlan rest ns)
              (applyWrites
                (((findNodeIn ns p.1 "pos").map
                    (fun nid => (nid, getNumProp p.2 "voltage" 5))).toList ++
                 ((findNodeIn ns p.1 "neg").map
                    (fun nid => (nid, (0 : ℚ)))).toList) ns) =
            applyWrites
              ((((findNodeIn ns p.1 "pos").map
                  (fun nid => (nid, getNumProp p.2 "voltage" 5))).toList ++
                ((findNodeIn ns p.1 "neg").map
                  (fun nid => (nid, (0 : ℚ)))).toList) ++ dcPlan rest ns) ns
          from (List.foldl_append _ _ _ _).symm]
        rw [show dcPlan (p :: rest) ns =
              (((findNodeIn ns p.1 "pos").map
                  (fun nid => (nid, getNumProp p.2 "voltage" 5))).toList ++
                ((findNodeIn ns p.1 "neg").map
                  (fun nid => (nid, (0 : ℚ)))).toList) ++ dcPlan rest ns from by
          simp [dcPlan, if_pos hk]]
      · have hstep : dcStep ns p = ns := by
          unfold dcStep
          by_cases h1 : (p.2.kind = CompKind.dcSource ∨
              p.2.kind = CompKind.acSource)
          · rw [if_pos h1, if_neg hk]
          · rw [if_neg h1]
        rw [hcons, hstep, ih ns,
            show dcPlan (p :: rest) ns = dcPlan rest ns from by
              simp [dcPlan, if_neg hk]]

/-- The node-map output of `solve_circuit` normalized to its write plan. -/
theorem solveCore_nodes_eq_plan (comps : List (String × Component))
    (ns : List (String × SimNode)) (g : String) :
    (solveCore comps ns g).2 = applyWrites (solvePlan comps ns g) ns := by
  show solveDCPass comps (writeNode g 0 ns) = _
  rw [solveDCPass_eq_applyWrites comps (writeNode g 0 ns),
      dcPlan_skeleton (nodeSkeleton_writeNode g 0 ns) comps]
  rfl

/-- `solve_circuit` is insensitive to node voltages it rewrites anyway. -/
theorem solveCore_congr {comps : List (String × Component)}
    {ns ns' : List (String × SimNode)} {g : String}
    (h : nodesRel ((solvePlan comps ns g).map Prod.fst) ns ns') :
    solveCore comps ns g = solveCore comps ns' g := by
  have hskel : nodeSkeleton ns = nodeSkeleton ns' := nodesRel_skeleton h
  have hplan : solvePlan comps ns' g = solvePlan comps ns g := by
    unfold solvePlan
    rw [dcPlan_skeleton hskel.symm comps]
  have hnodes : (solveCore comps ns g).2 = (solveCore comps ns' g).2 := by
    rw [solveCore_nodes_eq_plan, solveCore_nodes_eq_plan, hplan]
    exact applyWrites_congr h
  have hx : solveDCPass comps (writeNode g 0 ns) =
      solveDCPass comps (writeNode g 0 ns') := hnodes
  show (solveDiodePass (solvePropagate
      (solveDCPass comps (writeNode g 0 ns)) comps),
    solveDCPass comps (writeNode g 0 ns)) = _
  rw [hx]
  rfl

theorem skelC_refl (c : Component) : skelC c c :=
  ⟨rfl, rfl, rfl, rfl, fun _ => rfl⟩

theorem skelC_trans {a b c : Component} (h1 : skelC a b) (h2 : skelC b c) :
    skelC a c := by
  obtain ⟨i1, k1, p1, t1, a1⟩ := h1
  obtain ⟨i2, k2, p2, t2, a2⟩ := h2
  refine ⟨i2.trans i1, k2.trans k1, p2.trans p1, t2.trans t1, ?_⟩
  intro hk
  have hk' : b.kind ≠ CompKind.acSource := by rw [k1]; exact hk
  exact (a2 hk').trans (a1 hk)

theorem skelC_state (c : Component) (st : List (String × SVal)) :
    skelC c { c with state := st } :=
  ⟨rfl, rfl, rfl, rfl, fun _ => rfl⟩

theorem skelC_state_clock (c : Component) (st : List (String × SVal))
    (a : ℚ) (h : c.kind ≠ CompKind.acSource → a = c.acClock) :
    skelC c { c with state := st, acClock := a } :=
  ⟨rfl, rfl, rfl, rfl, h⟩

theorem forall₂_entrySkel_refl (l : List (String × Component)) :
    List.Forall₂ entrySkel l l := by
  induction l with
  | nil => exact List.Forall₂.nil
  | cons a rest ih => exact List.Forall₂.cons ⟨rfl, skelC_refl a.2⟩ ih

theorem forall₂_entrySkel_trans {l1 l2 l3 : List (String × Component)}
    (h1 : List.Forall₂ entrySkel l1 l2)
    (h2 : List.Forall₂ entrySkel l2 l3) : List.Forall₂ entrySkel l1 l3 := by
  induction h1 generalizing l3 with
  | nil => cases h2; exact List.Forall₂.nil
  | cons hab hrest ih =>
      cases h2 with
      | cons hbc hrest2 =>
          exact List.Forall₂.cons ⟨hab.1.trans hbc.1,
            skelC_trans hab.2 hbc.2⟩ (ih hrest2)

theorem lookupA_entrySkel {l l' : List (String × Component)}
    (h : List.Forall₂ entrySkel l l') (k : String) :
    (lookupA k l = none ∧ lookupA k l' = none) ∨
    ∃ c c', lookupA k l = some c ∧ lookupA k l' = some c' ∧ skelC c c' := by
  induction h with
  | nil => exact Or.inl ⟨rfl, rfl⟩
  | cons h1 _ ih =>
      rename_i p q l1 l2 _
      obtain ⟨hk1, hsk⟩ := h1
      by_cases hp : p.1 = k
      · have hq : q.1 = k := by rw [← hk1]; exact hp
        exact Or.inr ⟨p.2, q.2, by simp [lookupA, hp],
          by simp [lookupA, hq], hsk⟩
      · have hq : ¬ q.1 = k := by rw [← hk1]; exact hp
        simpa [lookupA, hp, hq] using ih

theorem setA_entrySkel {l : List (String × Component)} {k : String}
    {c c' : Component} (hl : lookupA k l = some c) (hsk : skelC c c') :
    List.Forall₂ entrySkel l (setA k c' l) := by
  induction l with
  | nil => simp [lookupA] at hl
  | cons a rest ih =>
      by_cases ha : a.1 = k
      · simp only [lookupA, if_pos ha] at hl
        cases hl
        rw [show setA k c' (a :: rest) = (k, c') :: rest from by
          simp [setA, ha]]
        exact List.Forall₂.cons ⟨ha, hsk⟩ (forall₂_entrySkel_refl rest)
      · simp only [lookupA, if_neg ha] at hl
        rw [show setA k c' (a :: rest) = a :: setA k c' rest from by
          simp [setA, ha]]
        exact List.Forall₂.cons ⟨rfl, skelC_refl a.2⟩ (ih hl)

theorem compUpdate_pres {comps0 a : List (String × Component)}
    (hP : List.Forall₂ entrySkel comps0 a) {k : String} {c c' : Component}
    (hl : lookupA k a = some c) (hsk : skelC c c') :
    List.Forall₂ entrySkel comps0 (setA k c' a) :=
  forall₂_entrySkel_trans hP (setA_entrySkel hl hsk)

theorem solvePropagate_skel (ns : List (String × SimNode))
    {comps0 comps : List (String × Component)}
    (h : List.Forall₂ entrySkel comps0 comps) :
    List.Forall₂ entrySkel comps0 (solvePropagate ns comps) := by
  unfold solvePropagate
  refine foldl_pres (fun a => List.Forall₂ entrySkel comps0 a) _ ?_ ns comps h
  intro a q ha
  refine foldl_pres (fun a => List.Forall₂ entrySkel comps0 a) _ ?_
    q.2.members a ha
  intro a m ha2
  split
  · rename_i c heq
    split
    · rename_i d heq2
      exact compUpdate_pres ha2 heq (skelC_state _ _)
    · exact ha2
  · exact ha2

theorem solveDiodePass_skel {comps0 comps : List (String × Component)}
    (h : List.Forall₂ entrySkel comps0 comps) :
    List.Forall₂ entrySkel comps0 (solveDiodePass comps) := by
  unfold solveDiodePass
  refine foldl_pres (fun a => List.Forall₂ entrySkel comps0 a) _ ?_
    (comps.map (·.1)) comps h
  intro a cid ha
  split
  · rename_i c heq
    dsimp only
    repeat' split
    all_goals
      first
        | exact ha
        | exact compUpdate_pres ha heq (skelC_state _ _)
  · exact ha

theorem nodesRel_symm {W : List String} {ns ns' : List (String × SimNode)}
    (h : nodesRel W ns ns') : nodesRel W ns' ns := by
  induction h with
  | nil => exact List.Forall₂.nil
  | cons h1 _ ih =>
      refine List.Forall₂.cons ⟨h1.1.symm, h1.2.1.symm, ?_⟩ ih
      intro hw
      refine (h1.2.2 ?_).symm
      rw [h1.1]
      exact hw

theorem nodesRel_writeNode_pres {W : List String}
    {ns0 ns : List (String × SimNode)} (h : nodesRel W ns0 ns) {nid : String}
    (hmem : nid ∈ W) (v : ℚ) : nodesRel W ns0 (writeNode nid v ns) := by
  induction h with
  | nil => exact List.Forall₂.nil
  | cons h1 _ ih =>
      rename_i p q l1 l2 _
      rw [show writeNode nid v (q :: l2) =
          (if q.1 = nid then (q.1, { q.2 with voltage := v }) else q) ::
            writeNode nid v l2 from rfl]
      by_cases hq : q.1 = nid
      · rw [if_pos hq]
        refine List.Forall₂.cons ⟨h1.1, h1.2.1, ?_⟩ ih
        intro hw
        exact absurd (show p.1 ∈ W by rw [h1.1.trans hq]; exact hmem) hw
      · rw [if_neg hq]
        exact List.Forall₂.cons h1 ih

theorem applyWrites_rel (ws : List (String × ℚ))
    (ns : List (String × SimNode)) :
    nodesRel (ws.map Prod.fst) ns (applyWrites ws ns) := by
  rw [applyWrites_entry]
  induction ns with
  | nil => exact List.Forall₂.nil
  | cons a rest ih =>
      rw [List.map_cons]
      refine List.Forall₂.cons ⟨rfl, rfl, ?_⟩ ih
      intro hw
      exact (writeFold_not_mem _ hw).symm

theorem dcPlan_target_pos {comps : List (String × Component)}
    {ns : List (String × SimNode)} {p : String × Component}
    (hp : p ∈ comps) (hk : p.2.kind = CompKind.dcSource) {nid : String}
    (hf : findNodeIn ns p.1 "pos" = some nid) :
    nid ∈ (dcPlan comps ns).map Prod.fst := by
  induction comps with
  | nil => cases hp
  | cons a rest ih =>
      rcases List.mem_cons.mp hp with he | hm
      · subst he
        simp [dcPlan, hk, hf]
      · by_cases hak : a.2.kind = CompKind.dcSource
        · have := ih hm
          simp only [dcPlan, if_pos hak, List.map_append, List.mem_append]
          tauto
        · simp only [dcPlan, if_neg hak]
          exact ih hm

theorem dcPlan_target_neg {comps : List (String × Component)}
    {ns : List (String × SimNode)} {p : String × Component}
    (hp : p ∈ comps) (hk : p.2.kind = CompKind.dcSource) {nid : String}
    (hf : findNodeIn ns p.1 "neg" = some nid) :
    nid ∈ (dcPlan comps ns).map Prod.fst := by
  induction comps with
  | nil => cases hp
  | cons a rest ih =>
      rcases List.mem_cons.mp hp with he | hm
      · subst he
        cases hfp : findNodeIn ns p.1 "pos" <;> simp [dcPlan, hk, hf, hfp]
      · by_cases hak : a.2.kind = CompKind.dcSource
        · have := ih hm
          simp only [dcPlan, if_pos hak, List.map_append, List.mem_append]
          tauto
        · simp only [dcPlan, if_neg hak]
          exact ih hm

theorem componentCalculate_acClock {w : Wave}
    {comps : List (String × Component)} {ns : List (String × SimNode)}
    {c : Component} (dt : ℚ) (h : c.kind ≠ CompKind.acSource) :
    (componentCalculate w comps ns c dt).2.2 = c.acClock := by
  cases hk : c.kind <;>
    first
      | exact absurd hk h
      | simp [componentCalculate, hk]

theorem componentCalculate_nodes_notDC {w : Wave}
    {comps : List (String × Component)} {ns : List (String × SimNode)}
    {c : Component} (dt : ℚ) (h : c.kind ≠ CompKind.dcSource) :
    (componentCalculate w comps ns c dt).2.1 = ns := by
  cases hk : c.kind <;>
    first
      | exact absurd hk h
      | simp [componentCalculate, hk]

theorem calcDC_nodes_rel {W : List String}
    {ns0 ns : List (String × SimNode)} (h : nodesRel W ns0 ns)
    (c : Component)
    (hpos : ∀ nid, findNodeIn ns c.id "pos" = some nid → nid ∈ W)
    (hneg : ∀ nid, findNodeIn ns c.id "neg" = some nid → nid ∈ W) :
    nodesRel W ns0 (calcDC ns c).2 := by
  unfold calcDC
  cases hfp : findNodeIn ns c.id "pos" with
  | none =>
      cases hfn : findNodeIn ns c.id "neg" with
      | none => simpa [hfp, hfn] using h
      | some nn =>
          simp only [hfp, hfn]
          exact nodesRel_writeNode_pres h (hneg nn hfn) 0
  | some np =>
      cases hfn : findNodeIn ns c.id "neg" with
      | none =>
          simp only [hfp, hfn]
          exact nodesRel_writeNode_pres h (hpos np hfp) _
      | some nn =>
          simp only [hfp, hfn]
          exact nodesRel_writeNode_pres
            (nodesRel_writeNode_pres h (hpos np hfp) _) (hneg nn hfn) 0

theorem wf_of_skel : ∀ {l l' : List (String × Component)},
    List.Forall₂ entrySkel l l' → (∀ p ∈ l, p.2.id = p.1) →
    (∀ p ∈ l', p.2.id = p.1) := by
  intro l l' h
  induction h with
  | nil => intro _ p hp; cases hp
  | cons h1 _ ih =>
      rename_i a b l1 l2 _
      intro hwf p hp
      rcases List.mem_cons.mp hp with he | hm
      · subst he
        rw [h1.2.1, hwf a (List.mem_cons_self _ _), h1.1]
      · exact ih (fun q hq => hwf q (List.mem_cons_of_mem _ hq)) p hm

theorem calcStep_joint (w : Wave) (dt t : ℚ) (cap : ℕ)
    {comps0 : List (String × Component)} {ns0 : List (String × SimNode)}
    {W : List String} (hwf : ∀ p ∈ comps0, p.2.id = p.1)
    (hWdc : ∀ nid, nid ∈ (dcPlan comps0 ns0).map Prod.fst → nid ∈ W)
    (acc : List (String × Component) × List (String × SimNode) ×
      List ((String × String) × List (ℚ × SVal))) (cid : String)
    (hj : List.Forall₂ entrySkel comps0 acc.1 ∧ nodesRel W ns0 acc.2.1) :
    List.Forall₂ entrySkel comps0 (calcStep w dt t cap acc cid).1 ∧
    nodesRel W ns0 (calcStep w dt t cap acc cid).2.1 := by
  obtain ⟨hskel, hrel⟩ := hj
  cases heq : lookupA cid acc.1 with
  | none =>
      rw [show calcStep w dt t cap acc cid = acc from by
        unfold calcStep
        rw [heq]]
      exact ⟨hskel, hrel⟩
  | some c =>
      obtain ⟨c0, c', hl0, hl', hsk⟩ :
          ∃ c0 c', lookupA cid comps0 = some c0 ∧
            lookupA cid acc.1 = some c' ∧ skelC c0 c' := by
        rcases lookupA_entrySkel hskel cid with ⟨_, hno⟩ | hyes
        · rw [heq] at hno
          · exact absurd hno (by simp)
        · exact hyes
      have hcc : c' = c := by rw [heq] at hl'; cases hl'; rfl
      rw [hcc] at hsk
      have hstep : calcStep w dt t cap acc cid =
          (setA cid { c with
              state := applyUpdates c.state
                (componentCalculate w acc.1 acc.2.1 c dt).1,
              acClock := (componentCalculate w acc.1 acc.2.1 c dt).2.2 }
            acc.1,
           (componentCalculate w acc.1 acc.2.1 c dt).2.1,
           recordState cap acc.2.2 cid t
             (applyUpdates c.state
               (componentCalculate w acc.1 acc.2.1 c dt).1)) := by
        unfold calcStep
        rw [heq]
      rw [hstep]
      constructor
      · refine compUpdate_pres hskel heq (skelC_state_clock _ _ _ ?_)
        intro hk
        exact componentCalculate_acClock dt hk
      · by_cases hk : c.kind = CompKind.dcSource
        · rw [show (componentCalculate w acc.1 acc.2.1 c dt).2.1 =
              (calcDC acc.2.1 c).2 from by simp [componentCalculate, hk]]
          have hid : c.id = cid := by
            rw [hsk.1, hwf (cid, c0) (lookupA_mem hl0)]
          have hk0 : c0.kind = CompKind.dcSource := by
            rw [← hsk.2.1]
            exact hk
          have hfind : ∀ conn, findNodeIn acc.2.1 c.id conn =
              findNodeIn ns0 cid conn := by
            intro conn
            rw [hid]
            exact findNodeIn_skeleton (nodesRel_skeleton hrel).symm cid conn
          refine calcDC_nodes_rel hrel c ?_ ?_
          · intro nid hf
            rw [hfind "pos"] at hf
            exact hWdc nid (dcPlan_target_pos (lookupA_mem hl0) hk0 hf)
          · intro nid hf
            rw [hfind "neg"] at hf
            exact hWdc nid (dcPlan_target_neg (lookupA_mem hl0) hk0 hf)
        · rw [componentCalculate_nodes_notDC dt hk]
          exact hrel

theorem calcFold_joint (w : Wave) (dt t : ℚ) (cap : ℕ)
    {comps0 : List (String × Component)} {ns0 : List (String × SimNode)}
    {W : List String} (hwf : ∀ p ∈ comps0, p.2.id = p.1)
    (hWdc : ∀ nid, nid ∈ (dcPlan comps0 ns0).map Prod.fst → nid ∈ W)
    (order : List String) (comps : List (String × Component))
    (ns : List (String × SimNode))
    (hist : List ((String × String) × List (ℚ × SVal)))
    (h0 : List.Forall₂ entrySkel comps0 comps ∧ nodesRel W ns0 ns) :
    List.Forall₂ entrySkel comps0
      (calcFold w dt t cap order comps ns hist).1 ∧
    nodesRel W ns0 (calcFold w dt t cap order comps ns hist).2.1 := by
  unfold calcFold
  refine foldl_pres (fun acc => List.Forall₂ entrySkel comps0 acc.1 ∧
    nodesRel W ns0 acc.2.1) _ ?_ order (comps, ns, hist) h0
  intro acc cid hacc
  exact calcStep_joint w dt t cap hwf hWdc acc cid hacc

theorem updateSim_fields (w : Wave) (e : Option ℚ) (s : Sim) :
    (updateSim w e s).groundId = s.groundId ∧
    (updateSim w e s).timeStep = s.timeStep ∧
    (updateSim w e s).running = s.running ∧
    (updateSim w e s).paused = s.paused ∧
    (updateSim w e s).historyLength = s.historyLength := by
  unfold updateSim
  by_cases hcond : (s.running = false ∨ s.paused = true ∨ s.components = [])
  · rw [if_pos hcond]
    exact ⟨rfl, rfl, rfl, rfl, rfl⟩
  · rw [if_neg hcond]
    exact ⟨(solveCircuit_fields s).1, (solveCircuit_fields s).2.1,
      (solveCircuit_fields s).2.2.2.1, (solveCircuit_fields s).2.2.2.2.1,
      (solveCircuit_fields s).2.2.2.2.2.2⟩

theorem updateSim_eq_calc (w : Wave) (e : Option ℚ) (s : Sim) {g : String}
    (hcond : ¬ (s.running = false ∨ s.paused = true ∨ s.components = []))
    (hgc : s.groundId = some g) :
    (updateSim w e s).components =
      (calcFold w s.timeStep s.simulationTime s.historyLength
        ((solveCore s.components s.nodes g).1.map (·.1))
        (solveCore s.components s.nodes g).1
        (solveCore s.components s.nodes g).2 s.history).1 ∧
    (updateSim w e s).nodes =
      (calcFold w s.timeStep s.simulationTime s.historyLength
        ((solveCore s.components s.nodes g).1.map (·.1))
        (solveCore s.components s.nodes g).1
        (solveCore s.components s.nodes g).2 s.history).2.1 := by
  unfold updateSim
  rw [if_neg hcond]
  simp [solveCircuit, hgc]

theorem updateSim_invariant (w : Wave) (e : Option ℚ) (s : Sim)
    (hg : s.groundId.isSome = true)
    (hwf : ∀ p ∈ s.components, p.2.id = p.1) :
    List.Forall₂ entrySkel s.components (updateSim w e s).components ∧
    nodesRel (writtenIds s) s.nodes (updateSim w e s).nodes := by
  by_cases hcond : (s.running = false ∨ s.paused = true ∨ s.components = [])
  · rw [show updateSim w e s = s from by
      unfold updateSim
      rw [if_pos hcond]]
    exact ⟨forall₂_entrySkel_refl _, nodesRel_refl _ _⟩
  · cases hgc : s.groundId with
    | none => rw [hgc] at hg; simp at hg
    | some g =>
        have hW : writtenIds s = (solvePlan s.components s.nodes g).map
            Prod.fst := by
          simp [writtenIds, hgc]
        have hWdc : ∀ nid, nid ∈ (dcPlan s.components s.nodes).map Prod.fst →
            nid ∈ writtenIds s := by
          intro nid hm
          rw [hW]
          simp only [solvePlan, List.map_cons, List.mem_cons]
          exact Or.inr hm
        have hskel1 : List.Forall₂ entrySkel s.components
            (solveCore s.components s.nodes g).1 :=
          solveDiodePass_skel (solvePropagate_skel _ (forall₂_entrySkel_refl _))
        have hrel1 : nodesRel (writtenIds s) s.nodes
            (solveCore s.components s.nodes g).2 := by
          rw [solveCore_nodes_eq_plan, hW]
          exact applyWrites_rel _ _
        have hj := calcFold_joint w s.timeStep s.simulationTime
          s.historyLength hwf hWdc
          ((solveCore s.components s.nodes g).1.map (·.1))
          (solveCore s.components s.nodes g).1
          (solveCore s.components s.nodes g).2 s.history
          ⟨hskel1, hrel1⟩
        rw [(updateSim_eq_calc w e s hcond hgc).1,
            (updateSim_eq_calc w e s hcond hgc).2]
        exact hj

theorem componentExt {c c' : Component} (hid : c.id = c'.id)
    (hk : c.kind = c'.kind) (hp : c.props = c'.props)
    (hct : c.connectedTo = c'.connectedTo) (hs : c.state = c'.state)
    (ha : c.acClock = c'.acClock) : c = c' := by
  cases c
  cases c'
  simp_all

theorem dcPlan_entrySkel {comps comps' : List (String × Component)}
    (h : List.Forall₂ entrySkel comps comps')
    (ns : List (String × SimNode)) :
    dcPlan comps ns = dcPlan comps' ns := by
  induction h with
  | nil => rfl
  | cons h1 _ ih =>
      rename_i p q l1 l2 _
      by_cases hdc : p.2.kind = CompKind.dcSource
      · have hdc' : q.2.kind = CompKind.dcSource := by
          rw [h1.2.2.1]
          exact hdc
        have hv : getNumProp p.2 "voltage" 5 = getNumProp q.2 "voltage" 5 := by
          unfold getNumProp
          rw [h1.2.2.2.1]
        simp only [dcPlan, if_pos hdc, if_pos hdc', h1.1, hv, ih]
      · have hdc' : ¬ q.2.kind = CompKind.dcSource := by
          rw [h1.2.2.1]
          exact hdc
        simp only [dcPlan, if_neg hdc, if_neg hdc', ih]

theorem writtenIds_congr {s s' : Sim}
    (hc : List.Forall₂ entrySkel s.components s'.components)
    (hg : s.groundId = s'.groundId)
    (hskel : nodeSkeleton s.nodes = nodeSkeleton s'.nodes) :
    writtenIds s = writtenIds s' := by
  unfold writtenIds
  rw [hg]
  cases hgc : s'.groundId with
  | none => rfl
  | some g =>
      simp only [solvePlan]
      rw [dcPlan_entrySkel hc s.nodes, dcPlan_skeleton hskel s'.components]

theorem iter_invariant (w : Wave) (e : Option ℚ) (s : Sim)
    (hg : s.groundId.isSome = true)
    (hwf : ∀ p ∈ s.components, p.2.id = p.1) (n : ℕ) :
    List.Forall₂ entrySkel s.components (iterTick w e n s).components ∧
    nodesRel (writtenIds s) s.nodes (iterTick w e n s).nodes ∧
    (iterTick w e n s).groundId = s.groundId ∧
    (iterTick w e n s).timeStep = s.timeStep ∧
    (iterTick w e n s).running = s.running ∧
    (iterTick w e n s).paused = s.paused := by
  induction n with
  | zero =>
      exact ⟨forall₂_entrySkel_refl _, nodesRel_refl _ _, rfl, rfl, rfl, rfl⟩
  | succ m ih =>
      obtain ⟨hskel, hrel, hgid, hts, hrun, hpau⟩ := ih
      have hgN : (iterTick w e m s).groundId.isSome = true := by
        rw [hgid]
        exact hg
      have hwfN : ∀ p ∈ (iterTick w e m s).components, p.2.id = p.1 :=
        wf_of_skel hskel hwf
      have hinv := updateSim_invariant w e (iterTick w e m s) hgN hwfN
      have hWN : writtenIds (iterTick w e m s) = writtenIds s :=
        (writtenIds_congr hskel hgid.symm (nodesRel_skeleton hrel)).symm
      have hF := updateSim_fields w e (iterTick w e m s)
      rw [show iterTick w e (m + 1) s =
        updateSim w e (iterTick w e m s) from rfl]
      exact ⟨forall₂_entrySkel_trans hskel hinv.1,
        nodesRel_trans hrel (hWN ▸ hinv.2),
        hF.1.trans hgid, hF.2.1.trans hts, hF.2.2.1.trans hrun,
        hF.2.2.2.1.trans hpau⟩

theorem tick_simRel (w : Wave) (e e' : Option ℚ) {s s' : Sim}
    (h : simRel s s') :
    (updateSim w e s).components = (updateSim w e' s').components ∧
    simRel (updateSim w e s) (updateSim w e' s') := by
  obtain ⟨hc, hg, hgs, ht, hr, hp, hrel⟩ := h
  by_cases hcond : (s.running = false ∨ s.paused = true ∨ s.components = [])
  · have hcond' : (s'.running = false ∨ s'.paused = true ∨
        s'.components = []) := by
      rw [← hr, ← hp, ← hc]
      exact hcond
    rw [show updateSim w e s = s from by
        unfold updateSim
        rw [if_pos hcond],
      show updateSim w e' s' = s' from by
        unfold updateSim
        rw [if_pos hcond']]
    exact ⟨hc, hc, hg, hgs, ht, hr, hp, hrel⟩
  · have hcond' : ¬ (s'.running = false ∨ s'.paused = true ∨
        s'.components = []) := by
      rw [← hr, ← hp, ← hc]
      exact hcond
    cases hgc : s.groundId with
    | none =>
        rw [hgc] at hgs
        simp at hgs
    | some g =>
        have hgc' : s'.groundId = some g := by
          rw [← hg]
          exact hgc
        have hW : writtenIds s =
            (solvePlan s.components s.nodes g).map Prod.fst := by
          simp [writtenIds, hgc]
        have hcore : solveCore s.components s.nodes g =
            solveCore s'.components s'.nodes g := by
          rw [← hc]
          refine solveCore_congr ?_
          rw [← hW]
          exact hrel
        have he1 := updateSim_eq_calc w e s hcond hgc
        have he2 := updateSim_eq_calc w e' s' hcond' hgc'
        have hobs := calcFold_obs w s.timeStep s.simulationTime
          s'.simulationTime s.historyLength s'.historyLength
          ((solveCore s.components s.nodes g).1.map (·.1))
          (solveCore s.components s.nodes g).1
          (solveCore s.components s.nodes g).2 s.history s'.history
        have hcomps : (updateSim w e s).components =
            (updateSim w e' s').components := by
          rw [he1.1, he2.1, ← hcore, ← ht]
          exact hobs.1
        have hnodes : (updateSim w e s).nodes =
            (updateSim w e' s').nodes := by
          rw [he1.2, he2.2, ← hcore, ← ht]
          exact hobs.2
        have hF1 := updateSim_fields w e s
        have hF2 := updateSim_fields w e' s'
        refine ⟨hcomps, hcomps, ?_, ?_, ?_, ?_, ?_, ?_⟩
        · rw [hF1.1, hF2.1, hg]
        · rw [hF1.1, hgc]
          rfl
        · rw [hF1.2.1, hF2.2.1, ht]
        · rw [hF1.2.2.1, hF2.2.2.1, hr]
        · rw [hF1.2.2.2.1, hF2.2.2.2.1, hp]
        · rw [hnodes]
          exact nodesRel_refl _ _

theorem trajectory_congr (w : Wave) (e e' : Option ℚ) (k : ℕ) :
    ∀ {s s' : Sim}, simRel s s' →
      trajectory w e k s = trajectory w e' k s' := by
  induction k with
  | zero => intro s s' _; rfl
  | succ m ih =>
      intro s s' h
      have ht := tick_simRel w e e' h
      show componentStates (updateSim w e s) ::
          trajectory w e m (updateSim w e s) =
        componentStates (updateSim w e' s') ::
          trajectory w e' m (updateSim w e' s')
      rw [ih ht.2]
      rw [show componentStates (updateSim w e s) =
          componentStates (updateSim w e' s') from by
        unfold componentStates
        rw [ht.1]]

theorem reset_components_eq {l l' : List (String × Component)}
    (h : List.Forall₂ entrySkel l l')
    (hnoac : ∀ p ∈ l, p.2.kind ≠ CompKind.acSource)
    (hfresh : ∀ p ∈ l, p.2.state = initState p.2.kind p.2.props) :
    l'.map (fun p => (p.1, { p.2 with
      state := initState p.2.kind p.2.props })) = l := by
  induction h with
  | nil => rfl
  | cons h1 _ ih =>
      rename_i p q l1 l2 _
      simp only [List.map_cons]
      rw [ih (fun r hr => hnoac r (List.mem_cons_of_mem _ hr))
        (fun r hr => hfresh r (List.mem_cons_of_mem _ hr))]
      have hmem := List.mem_cons_self p l1
      have hone : (q.1, ({ q.2 with
          state := initState q.2.kind q.2.props } : Component)) = p := by
        have hcomp : ({ q.2 with
            state := initState q.2.kind q.2.props } : Component) = p.2 := by
          refine componentExt h1.2.1 h1.2.2.1 h1.2.2.2.1 h1.2.2.2.2.1 ?_
            (h1.2.2.2.2.2 (hnoac p hmem))
          rw [show ({ q.2 with
              state := initState q.2.kind q.2.props } : Component).state =
            initState q.2.kind q.2.props from rfl]
          rw [h1.2.2.1, h1.2.2.2.1]
          exact (hfresh p hmem).symm
        rw [hcomp, h1.1.symm]
      rw [hone]

/-- Reset after a run of an AC-source circuit does NOT reproduce the
original trajectory: the source's private `simulation_time` clock survives
`reset_simulation`, so the replay's recorded `time` state differs from the
first run's already at the first tick. -/
theorem c3_counterexample :
    trajectory waveZero none 1
        (resetSimulation (iterTick waveZero none 1 acSim)) ≠
      trajectory waveZero none 1 acSim := by
  decide

/-- C3: reset determinism holds for circuits without an ACVoltageSource.
For any simulator state with a chosen ground, well-formed component keys,
no AC source, and freshly initialized component states, running `n` ticks,
resetting, and replaying any `k` ticks reproduces exactly the trajectory
of component states of a `k`-tick run from the original state. -/
theorem c3_reset_determinism (w : Wave) (e : Option ℚ) (s : Sim)
    (hg : s.groundId.isSome = true)
    (hwf : ∀ p ∈ s.components, p.2.id = p.1)
    (hnoac : ∀ p ∈ s.components, p.2.kind ≠ CompKind.acSource)
    (hfresh : ∀ p ∈ s.components, p.2.state = initState p.2.kind p.2.props)
    (n k : ℕ) :
    trajectory w e k (resetSimulation (iterTick w e n s)) =
      trajectory w e k s := by
  obtain ⟨hskel, hrel, hgid, hts, hrun, hpau⟩ := iter_invariant w e s hg hwf n
  have hreset : resetSimulation (iterTick w e n s) =
      { iterTick w e n s with
          simulationTime := 0, history := [],
          components := s.components } := by
    unfold resetSimulation
    dsimp only
    rw [reset_components_eq hskel hnoac hfresh]
  have hW1 : writtenIds { iterTick w e n s with
      simulationTime := 0, history := [],
      components := s.components } = writtenIds s :=
    writtenIds_congr (forall₂_entrySkel_refl s.components) hgid
      (nodesRel_skeleton hrel).symm
  have hsim : simRel (resetSimulation (iterTick w e n s)) s := by
    rw [hreset]
    refine ⟨rfl, hgid, ?_, hts, hrun, hpau, ?_⟩
    · have hx : (iterTick w e n s).groundId.isSome = true := by
        rw [hgid]
        exact hg
      exact hx
    · rw [hW1]
      exact nodesRel_symm hrel
  exact trajectory_congr w e e k hsim

theorem c3_reset_determinism_witness :
    trajectory waveZero none 1
        (resetSimulation (iterTick waveZero none 1 dividerSim)) =
      trajectory waveZero none 1 dividerSim :=
  c3_reset_determinism waveZero none dividerSim (by decide) (by decide)
    (by decide) (by decide) 1 1

end Theorems

end CircuitSim
